import Mathlib

/-!
Verification development for the synthgen data-synthesis core.

This file gives a shallow embedding, in Lean 4, of the parts of the
repository that the verified properties talk about:

* the IR data model (`src/models/ir.py`): `ColumnType`, `Column`,
  `PrimaryKey`, `ForeignKey`, `ReferenceData`, `Table`, `Schema`, the
  case-insensitive lookups `Schema.get_table` / `Table.get_column`, the
  reference-table classifier `Table.is_reference_table`, and the
  distribution sampler `ReferenceData.get_weighted_distribution`;
* the data-synthesis agent (`src/agents/data_synth_agent.py`): the
  default-row-count assignment `_default_row_counts`, the generation
  scheduler `_determine_generation_order`, the type-coercion layer
  `_convert_data_types`, the reference-data passthrough
  `_use_reference_data`, the hybrid row-synthesis entry point
  `_generate_synthetic_data`, and the algorithmic expansion
  `_algorithmic_generate_data`.

Modelling conventions, used throughout:

* Python runtime values flowing through rows are modelled by the
  inductive type `Value` (`None`, `bool`, `int`, `float`, `str`).
  Python floats are modelled as exact rationals (`Rat`); float rounding
  is out of scope, arithmetic on weights and jitter is treated exactly.
* A Python `dict` row is modelled as an association list
  `List (String × Value)` in insertion order.  Python dictionaries have
  unique keys, so iterating `row.items()` and writing each result back
  is modelled by `List.map` over the entries, and `d[k] = v` by an
  in-place update (`rowSet`).
* Fallible Python operations (`int(x)`, `float(x)` raising) are
  modelled with `Option`; code paths whose Python counterpart raises an
  uncaught exception (or diverges) produce `none`.
* The LLM oracle is abstracted as a function `Nat → List Row` giving
  the parsed rows of an oracle call for the requested row count (an
  oracle/parse failure is the empty list, which is exactly how
  `_llm_generate_data` surfaces failures).  All random draws are
  abstracted by a `Rand` record of choice functions; selection from a
  nonempty list is modelled by indexing modulo its length, so that
  quantifying over `Rand` covers every choice the Python code can make.
-/

namespace SynthGen

/-- Python runtime values that can appear in a synthesized row. -/
inductive Value where
  | vNull : Value
  | vBool : Bool → Value
  | vInt : Int → Value
  | vFloat : Rat → Value
  | vStr : String → Value
deriving DecidableEq, Repr

/-- A row, i.e. a Python dict from column name to value, as an
association list in insertion order (dict keys are unique). -/
abbrev Row := List (String × Value)

/-- Python dict assignment `r[k] = v`: replace the value at an existing
key in place, else append the new key at the end. -/
def rowSet : Row → String → Value → Row
  | [], k, v => [(k, v)]
  | (k', v') :: rest, k, v =>
      if k' = k then (k, v) :: rest else (k', v') :: rowSet rest k v

/-- Python `r.get(k, d)`: the stored value, or the default when the key
is absent. -/
def rowGetD (r : Row) (k : String) (d : Value) : Value :=
  (List.lookup k r).getD d

/-- Value of a run of decimal digit characters; `none` when the run is
empty or contains a non-digit. -/
def digitsVal : List Char → Option Nat
  | [] => none
  | cs =>
    if cs.all (fun c => c.isDigit) then
      some (cs.foldl (fun acc c => 10 * acc + (c.toNat - 48)) 0)
    else none

/-- Strip leading and trailing spaces, as Python `int()`/`float()` do
with surrounding whitespace before parsing. -/
def stripSpaces (cs : List Char) : List Char :=
  ((cs.dropWhile (fun c => c = ' ')).reverse.dropWhile (fun c => c = ' ')).reverse

/-- Python `int(s)` on a string: optional sign around a digit run
(underscore separators and non-space whitespace are not modelled). -/
def parsePyInt (s : String) : Option Int :=
  match stripSpaces s.data with
  | '-' :: rest => (digitsVal rest).map (fun n => -(n : Int))
  | '+' :: rest => (digitsVal rest).map (fun n => (n : Int))
  | cs => (digitsVal cs).map (fun n => (n : Int))

/-- Digit run that may be empty (an empty run parses as value 0, used
for the parts around a decimal point, where Python accepts "1." and
".5" but not "."). -/
def digitsValOpt : List Char → Option Nat
  | [] => some 0
  | cs => digitsVal cs

/-- Python `float(s)` on a string: optional sign, digits with an
optional decimal point (exponents, inf/nan are not modelled). -/
def parsePyFloat (s : String) : Option Rat :=
  let core : List Char → Option Rat := fun cs =>
    let ip := cs.takeWhile (fun c => c ≠ '.')
    let rest := cs.dropWhile (fun c => c ≠ '.')
    match rest with
    | [] => (digitsVal ip).map (fun n => (n : Rat))
    | _ :: frac =>
      if ip.isEmpty ∧ frac.isEmpty then none
      else
        match digitsValOpt ip, digitsValOpt frac with
        | some a, some b =>
            some ((a : Rat) + (b : Rat) / ((10 : Rat) ^ frac.length))
        | _, _ => none
  match stripSpaces s.data with
  | '-' :: cs => (core cs).map (fun q => -q)
  | '+' :: cs => core cs
  | cs => core cs

/-- Truncation toward zero, the semantics of Python `int()` on a float. -/
def ratTrunc (q : Rat) : Int :=
  if 0 ≤ q then q.floor else q.ceil

/-- Deterministic stand-in for Python `repr` of a float.  Only
determinism matters to the verified claims; the exact digits never
coincide with the boolean token sets below. -/
def ratRepr (q : Rat) : String :=
  if q.den = 1 then toString q.num ++ ".0"
  else toString q.num ++ "/" ++ toString q.den

/-- Python `str(v)`. -/
def pyStr : Value → String
  | Value.vNull => "None"
  | Value.vBool b => if b then "True" else "False"
  | Value.vInt n => toString n
  | Value.vFloat q => ratRepr q
  | Value.vStr s => s

/-- Python `int(v)`; `none` models a raised exception.  A Python bool
is an int (`int(True) = 1`), a float truncates toward zero. -/
def pyInt : Value → Option Int
  | Value.vNull => none
  | Value.vBool b => some (if b then 1 else 0)
  | Value.vInt n => some n
  | Value.vFloat q => some (ratTrunc q)
  | Value.vStr s => parsePyInt s

/-- Python `float(v)`; `none` models a raised exception. -/
def pyFloat : Value → Option Rat
  | Value.vNull => none
  | Value.vBool b => some (if b then 1 else 0)
  | Value.vInt n => some (n : Rat)
  | Value.vFloat q => some q
  | Value.vStr s => parsePyFloat s

/-- SQL Server column data types (`ColumnType` in `src/models/ir.py`). -/
inductive ColumnType where
  | INTEGER | BIGINT | SMALLINT | TINYINT
  | DECIMAL | NUMERIC | FLOAT | REAL | MONEY
  | BIT
  | CHAR | VARCHAR | TEXT | NCHAR | NVARCHAR | NTEXT
  | DATE | DATETIME | DATETIME2 | SMALLDATETIME | TIME | DATETIMEOFFSET
  | UNIQUEIDENTIFIER | XML | BINARY | VARBINARY | IMAGE | JSON
  | UNKNOWN
deriving DecidableEq, Repr

/-- Integer subkinds, the tuple tested by `_convert_data_types` and
`_algorithmic_generate_data` before re-integerizing a numeric value. -/
def isIntKind : ColumnType → Bool
  | ColumnType.INTEGER => true
  | ColumnType.BIGINT => true
  | ColumnType.SMALLINT => true
  | ColumnType.TINYINT => true
  | _ => false

/-- Column dataclass of `src/models/ir.py`. -/
structure Column where
  name : String
  data_type : ColumnType
  nullable : Bool := true
  length : Option Nat := none
  precision : Option Nat := none
  scale : Option Nat := none
  default_value : Option String := none
  is_identity : Bool := false
  is_computed : Bool := false
  description : Option String := none
deriving DecidableEq, Repr

/-- Numeric-kind test `Column.is_numeric`. -/
def Column.is_numeric (c : Column) : Bool :=
  match c.data_type with
  | ColumnType.INTEGER => true
  | ColumnType.BIGINT => true
  | ColumnType.SMALLINT => true
  | ColumnType.TINYINT => true
  | ColumnType.DECIMAL => true
  | ColumnType.NUMERIC => true
  | ColumnType.FLOAT => true
  | ColumnType.REAL => true
  | ColumnType.MONEY => true
  | _ => false

/-- String-kind test `Column.is_string`. -/
def Column.is_string (c : Column) : Bool :=
  match c.data_type with
  | ColumnType.CHAR => true
  | ColumnType.VARCHAR => true
  | ColumnType.TEXT => true
  | ColumnType.NCHAR => true
  | ColumnType.NVARCHAR => true
  | ColumnType.NTEXT => true
  | _ => false

/-- Boolean-kind test `Column.is_boolean` (the BIT type). -/
def Column.is_boolean (c : Column) : Bool :=
  c.data_type = ColumnType.BIT

/-- PrimaryKey dataclass. -/
structure PrimaryKey where
  name : String
  columns : List String
deriving DecidableEq, Repr

/-- ForeignKey dataclass. -/
structure ForeignKey where
  name : String
  columns : List String
  ref_table : String
  ref_columns : List String
  on_delete : Option String := none
  on_update : Option String := none
deriving DecidableEq, Repr

/-- Index dataclass. -/
structure TableIndex where
  name : String
  columns : List String
  is_unique : Bool := false
  is_clustered : Bool := false
deriving DecidableEq, Repr

/-- CheckConstraint dataclass. -/
structure CheckConstraint where
  name : String
  definition : String
deriving DecidableEq, Repr

/-- UniqueConstraint dataclass. -/
structure UniqueConstraint where
  name : String
  columns : List String
deriving DecidableEq, Repr

/-- DefaultConstraint dataclass. -/
structure DefaultConstraint where
  name : String
  column : String
  definition : String
deriving DecidableEq, Repr

/-- ReferenceData dataclass: the attached weighted row set. -/
structure ReferenceData where
  rows : List Row
  distribution_strategy : Option String := none
  description : Option String := none
deriving DecidableEq, Repr

/-- Table dataclass. -/
structure Table where
  name : String
  columns : List Column
  primary_key : Option PrimaryKey := none
  foreign_keys : List ForeignKey := []
  indices : List TableIndex := []
  check_constraints : List CheckConstraint := []
  unique_constraints : List UniqueConstraint := []
  default_constraints : List DefaultConstraint := []
  reference_data : Option ReferenceData := none
  description : Option String := none
deriving DecidableEq, Repr

/-- GenerationRule dataclass (payload kept as an opaque row). -/
structure GenerationRule where
  rule_id : String
  rule_type : String
  target : String
  definition : Row
  description : Option String := none
deriving DecidableEq, Repr

/-- Schema dataclass. -/
structure Schema where
  name : String
  tables : List Table
  generation_rules : List GenerationRule := []
  ir_version : String := "1.0.0"
  description : Option String := none
deriving DecidableEq, Repr

/-- ASCII lowercase of a string, Python `str.lower()` (as a plain map
over the characters, so that concrete instances evaluate). -/
def strLower (s : String) : String :=
  ⟨s.data.map Char.toLower⟩

/-- Case-insensitive column lookup `Table.get_column`: the first column
whose lowered name equals the lowered query, else `None`. -/
def Table.get_column (t : Table) (name : String) : Option Column :=
  t.columns.find? (fun c => strLower c.name = strLower name)

/-- Case-insensitive table lookup `Schema.get_table`. -/
def Schema.get_table (s : Schema) (name : String) : Option Table :=
  s.tables.find? (fun t => strLower t.name = strLower name)

/-- Check whether `needle` is a prefix of `hay` (character lists). -/
def charsPre : List Char → List Char → Bool
  | [], _ => true
  | _ :: _, [] => false
  | a :: as, b :: bs => a = b && charsPre as bs

/-- Check whether `needle` occurs as a contiguous substring of `hay`,
the semantics of Python `needle in hay` on strings. -/
def charsSub (needle : List Char) : List Char → Bool
  | [] => charsPre needle []
  | c :: rest => charsPre needle (c :: rest) || charsSub needle rest

/-- Python `ind in name` on strings. -/
def strContains (hay needle : String) : Bool :=
  charsSub needle.data hay.data

/-- Indicator substrings used by the reference-table heuristic. -/
def referenceIndicators : List String :=
  ["lookup", "reference", "type", "status", "code"]

/-- Reference-table classifier `Table.is_reference_table`: non-empty
attached reference data, or an indicator substring in the lowered name
together with at most 5 columns and a declared primary key. -/
def Table.is_reference_table (t : Table) : Bool :=
  match t.reference_data with
  | some rd =>
    if rd.rows.length > 0 then true
    else
      referenceIndicators.any (fun ind => strContains (strLower t.name) ind)
        && t.columns.length ≤ 5 && t.primary_key.isSome
  | none =>
      referenceIndicators.any (fun ind => strContains (strLower t.name) ind)
        && t.columns.length ≤ 5 && t.primary_key.isSome

/-- `Schema.get_reference_tables`. -/
def Schema.get_reference_tables (s : Schema) : List Table :=
  s.tables.filter (fun t => t.is_reference_table)

/-- `Schema.get_data_tables`. -/
def Schema.get_data_tables (s : Schema) : List Table :=
  s.tables.filter (fun t => ¬ t.is_reference_table)

/-- Presence of an explicit `weight` key in some row, the `has_weights`
test of `ReferenceData.get_weighted_distribution`. -/
def ReferenceData.hasExplicitWeights (rd : ReferenceData) : Bool :=
  rd.rows.any (fun r => (List.lookup "weight" r).isSome)

/-- Per-row weight extraction loop, `float(row.get("weight", 1.0))`
over the rows in order; `none` models the first raised conversion
error aborting the call. -/
def weightsOf : List Row → Option (List Rat)
  | [] => some []
  | r :: rest =>
    match pyFloat (rowGetD r "weight" (Value.vFloat 1)), weightsOf rest with
    | some w, some ws => some (w :: ws)
    | _, _ => none

/-- Extracted per-row weights of a reference-data set. -/
def ReferenceData.rawWeights (rd : ReferenceData) : Option (List Rat) :=
  weightsOf rd.rows

/-- Distribution sampler `ReferenceData.get_weighted_distribution`:
row index to normalized weight.  With explicit weights the extracted
weights are divided by their total when the total is positive;
otherwise every row gets `1/row_count` (0.0 for the empty row set,
which produces the empty mapping). -/
def ReferenceData.get_weighted_distribution (rd : ReferenceData) :
    Option (List (Nat × Rat)) :=
  if rd.hasExplicitWeights then
    match rd.rawWeights with
    | none => none
    | some ws =>
      let total := ws.sum
      let ws' := if 0 < total then ws.map (fun w => w / total) else ws
      some ws'.enum
  else
    let n := rd.rows.length
    let eq := if n ≠ 0 then (1 : Rat) / n else 0
    some ((List.range n).map (fun i => (i, eq)))

/-- Total number of foreign-key column slots of a table, the
`sum(1 for fk in table.foreign_keys for _ in fk.columns)` of
`_default_row_counts` (a column belonging to two foreign keys is
counted once per key). -/
def fkColumnSlots (t : Table) : Nat :=
  (t.foreign_keys.map (fun fk => fk.columns.length)).sum

/-- Per-table default row count, the loop body of
`_default_row_counts`: reference tables use the attached row count when
present (else 5); data tables use 25 when `fk_columns > 0` and
`fk_columns >= len(columns) / 2` (junction heuristic), else 50. -/
def default_row_count (t : Table) : Nat :=
  if t.is_reference_table then
    match t.reference_data with
    | some rd => if rd.rows.length ≠ 0 then rd.rows.length else 5
    | none => 5
  else
    let fkc := fkColumnSlots t
    if 0 < fkc ∧ 2 * fkc ≥ t.columns.length then 25 else 50

/-- Mapping `_default_row_counts` over the schema (the Python dict,
keyed by table name in declaration order). -/
def default_row_counts (s : Schema) : List (String × Nat) :=
  s.tables.map (fun t => (t.name, default_row_count t))

/-- Entry of the scheduler's `dependencies` dict at key `n`: the
insertion-ordered set of `fk.ref_table` names contributed by every
table named `n` (a name absent from the schema has no entry, giving
the empty set). -/
def Schema.depsLookup (s : Schema) (n : String) : List String :=
  s.tables.foldl
    (fun acc t =>
      if t.name = n then
        t.foreign_keys.foldl
          (fun a fk => if fk.ref_table ∈ a then a else a ++ [fk.ref_table]) acc
      else acc)
    []

/-- Dependency set contributed by a single table, used to state
per-table properties (equal to `depsLookup` at the table's name when
table names are distinct). -/
def Table.depsOf (t : Table) : List String :=
  t.foreign_keys.foldl
    (fun a fk => if fk.ref_table ∈ a then a else a ++ [fk.ref_table]) []

/-- State of the scheduler's depth-first traversal: the `temp_visited`
set, the `visited` set and the accumulated `generation_order`. -/
structure DfsState where
  temp : List String
  visited : List String
  order : List String
deriving DecidableEq, Repr

/-- Recursive `visit` of `_determine_generation_order`, with a fuel
parameter bounding the recursion depth (the depth never exceeds the
number of distinct names, so the fuel chosen in
`determine_generation_order` is never exhausted; the ordering theorems
below prove their conclusions through this bound rather than assuming
it). -/
def visitFuel (deps : String → List String) : Nat → DfsState → String → DfsState
  | 0, s, _ => s
  | n + 1, s, t =>
    if t ∈ s.visited then s
    else if t ∈ s.temp then s
    else
      let s1 : DfsState := ⟨t :: s.temp, s.visited, s.order⟩
      let s2 := (deps t).foldl (fun acc d => visitFuel deps n acc d) s1
      ⟨s2.temp.erase t, t :: s2.visited, s2.order ++ [t]⟩

/-- Every name that can be an argument of `visit`: table names and
foreign-key target names. -/
def Schema.allDepNames (s : Schema) : List String :=
  (s.tables.map (fun t => t.name))
    ++ s.tables.flatMap (fun t => t.foreign_keys.map (fun fk => fk.ref_table))

/-- Final traversal state of `_determine_generation_order`: the
initial state has no `temp_visited` entries, the reference-table names
pre-visited and pre-emitted (in declaration order), and each data table
is then visited in declaration order unless already visited. -/
def schedulerEndState (s : Schema) : DfsState :=
  let refT := s.get_reference_tables.map (fun t => t.name)
  let dataT := s.get_data_tables.map (fun t => t.name)
  let fuel := s.allDepNames.length + 1
  let s0 : DfsState := ⟨[], refT, refT⟩
  dataT.foldl
    (fun st t => if t ∈ st.visited then st else visitFuel s.depsLookup fuel st t) s0

/-- Generation scheduler `_determine_generation_order`: reference
tables first (marked visited unconditionally, in declaration order),
then a depth-first post-order traversal of the data tables along the
foreign-key dependency map. -/
def determine_generation_order (s : Schema) : List String :=
  (schedulerEndState s).order

/-- Tokens mapped to `True` by the boolean coercion (lower-cased). -/
def booleanTrueTokens : List String := ["true", "t", "yes", "y", "1"]

/-- Tokens mapped to `False` by the boolean coercion (lower-cased). -/
def booleanFalseTokens : List String := ["false", "f", "no", "n", "0"]

/-- Per-value branch of `_convert_data_types`: `None` passes through,
numeric kinds coerce via `int`/`float` with fallback to the raw value,
BIT maps the token sets, everything else stringifies; unknown column
names pass through. -/
def convertValue (table : Table) (colName : String) (v : Value) : Value :=
  match table.get_column colName with
  | none => v
  | some column =>
    if v = Value.vNull then Value.vNull
    else if column.is_numeric then
      if isIntKind column.data_type then
        match pyInt v with
        | some n => Value.vInt n
        | none => v
      else
        match pyFloat v with
        | some q => Value.vFloat q
        | none => v
    else if column.is_boolean then
      match v with
      | Value.vBool _ => v
      | _ =>
        let sLow := strLower (pyStr v)
        if sLow ∈ booleanTrueTokens then Value.vBool true
        else if sLow ∈ booleanFalseTokens then Value.vBool false
        else v
    else Value.vStr (pyStr v)

/-- Row branch of `_convert_data_types` (dict keys are unique, so the
rebuild of `converted_row` is a map over the entries). -/
def convertRow (table : Table) (r : Row) : Row :=
  r.map (fun kv => (kv.1, convertValue table kv.1 kv.2))

/-- Type-coercion layer `_convert_data_types`. -/
def convert_data_types (data : List Row) (table : Table) : List Row :=
  data.map (fun r => convertRow table r)

/-- Abstracted random generator: each field answers one kind of draw
made by `_algorithmic_generate_data`, keyed by the generated row index
(and column name or foreign-key column tuple).  Selections from
nonempty lists are taken modulo the list length, so ranging over all
`Rand` values covers every choice the Python generator can produce. -/
structure Rand where
  templateIdx : Nat → Nat
  factor : Nat → String → Rat
  letterPick : Nat → String → Nat × Nat
  fkPick : Nat → List String → Nat

/-- Alphabet sampled for the 2-letter string suffix. -/
def lowercaseAlphabet : List Char := "abcdefghijklmnopqrstuvwxyz".data

/-- Two random lowercase letters,
`''.join(random.choices('abcdefghijklmnopqrstuvwxyz', k=2))`. -/
def twoLetters (rand : Rand) (i : Nat) (colName : String) : String :=
  let p := rand.letterPick i colName
  String.mk [lowercaseAlphabet.getD (p.1 % 26) 'a',
             lowercaseAlphabet.getD (p.2 % 26) 'a']

/-- Python string slice `s[:n]`. -/
def strTake (s : String) (n : Nat) : String :=
  String.mk (s.data.take n)

/-- Python string slice `s[-n:]` for `n > 0`: the last `n` characters
(the whole string when it is shorter than `n`). -/
def pyTakeLast (s : String) (n : Nat) : String :=
  String.mk (s.data.drop (s.data.length - n))

/-- Numeric payload of an int/float/bool value (Python bool is an int). -/
def toRatNum : Value → Rat
  | Value.vInt n => (n : Rat)
  | Value.vFloat q => q
  | Value.vBool b => if b then 1 else 0
  | _ => 0

/-- Per-column template mutation of `_algorithmic_generate_data`:
numeric values are jittered (re-integerized for integer kinds), string
values become `f"{value[:5]}{suffix}"[-column.length:]` with a 2-letter
random suffix and the slice applied only for a truthy (nonzero)
declared length, all other values are copied (stringified when the
column is a string kind but the value is not a string). -/
def mutateValue (rand : Rand) (i : Nat) (column : Column) (colName : String)
    (v : Value) : Value :=
  if column.is_numeric then
    match v with
    | Value.vInt _ | Value.vFloat _ | Value.vBool _ =>
      let nv := toRatNum v * rand.factor i colName
      if isIntKind column.data_type then Value.vInt (ratTrunc nv)
      else Value.vFloat nv
    | _ => v
  else if column.is_string then
    match v with
    | Value.vStr str =>
      let core := strTake str 5 ++ twoLetters rand i colName
      match column.length with
      | some l => if l = 0 then Value.vStr core else Value.vStr (pyTakeLast core l)
      | none => Value.vStr core
    | _ => Value.vStr (pyStr v)
  else v

/-- Build a fresh row from a template: unknown columns are skipped,
known columns get mutated values, in template order. -/
def mutateTemplate (rand : Rand) (i : Nat) (table : Table) (template : Row) : Row :=
  template.foldl
    (fun row kv =>
      match table.get_column kv.1 with
      | none => row
      | some column => rowSet row kv.1 (mutateValue rand i column kv.1 kv.2))
    []

/-- One entry of the `fk_mappings` dict: the foreign key's local column
tuple, the valid referenced value tuples, and the weighted distribution
when the referenced table declares `weighted_random`. -/
structure FkMapping where
  cols : List String
  validValues : List (List Value)
  weighted : Option (List (Nat × Rat))
deriving Repr

/-- Build `fk_mappings`: every foreign key whose (case-insensitively)
resolved table carries non-empty reference data contributes its valid
value tuples; a failing weight extraction propagates as `none`.  The
Python dict is keyed by the column tuple with later duplicates
overwriting earlier ones; the list model applies duplicate entries in
order, which assigns the same final values because `Rand.fkPick` is
keyed by the same tuple. -/
def buildFkMappings (schema : Schema) (table : Table) : Option (List FkMapping) :=
  table.foreign_keys.foldlM
    (fun acc fk =>
      match schema.get_table fk.ref_table with
      | none => some acc
      | some rt =>
        match rt.reference_data with
        | none => some acc
        | some rd =>
          if rd.rows = [] then some acc
          else
            let vv := rd.rows.filterMap (fun r =>
              if fk.ref_columns.all (fun c => (List.lookup c r).isSome) then
                some (fk.ref_columns.map (fun c => rowGetD r c Value.vNull))
              else none)
            if rd.distribution_strategy = some "weighted_random" then
              match rd.get_weighted_distribution with
              | none => none
              | some w => some (acc ++ [⟨fk.columns, vv, some w⟩])
            else some (acc ++ [⟨fk.columns, vv, none⟩]))
    []

/-- Overwrite the local foreign-key columns with a referenced value
tuple drawn for each mapping (`random.choices` with weights or
`random.choice`, both abstracted through `Rand.fkPick`; the
`enumerate` guard `i < len(selected_values)` is the `zip`). -/
def applyFkMappings (rand : Rand) (i : Nat) (maps : List FkMapping) (r : Row) : Row :=
  maps.foldl
    (fun row m =>
      if m.validValues = [] then row
      else
        let idx := rand.fkPick i m.cols % m.validValues.length
        let selected := m.validValues.getD idx []
        (m.cols.zip selected).foldl (fun row2 cv => rowSet row2 cv.1 cv.2) row)
    r

/-- Primary-key tuple of a row, `tuple(row.get(col) for col in
pk_columns)` (a missing key and a stored null are both Python `None`). -/
def pkTuple (pkCols : List String) (r : Row) : List Value :=
  pkCols.map (fun c => rowGetD r c Value.vNull)

/-- One pass of the collision-repair body: for each primary-key column,
numeric columns become `int(value) + suffix` (a failing `int` raises,
modelled by `none`), string columns get `"_<suffix>"` appended to
`str(value)`, other kinds are untouched. -/
def repairStep (table : Table) (pkCols : List String) (k : Nat) (r : Row) :
    Option Row :=
  pkCols.foldlM
    (fun row c =>
      match table.get_column c with
      | none => some row
      | some column =>
        if column.is_numeric then
          match pyInt (rowGetD row c (Value.vInt 0)) with
          | some n => some (rowSet row c (Value.vInt (n + (k : Int))))
          | none => none
        else if column.is_string then
          some (rowSet row c
            (Value.vStr (pyStr (rowGetD row c (Value.vStr "")) ++ "_" ++ toString k)))
        else some row)
    r

/-- Collision-repair loop: while the primary-key tuple is already used,
mutate the key columns with an incrementing counter.  Any Python run of
this loop that terminates does so within `|existing| + 1` iterations
(each iteration that changes the row strictly increases a numeric
component or a string length, so the visited tuples are pairwise
distinct), which the fuel passed by `genRowsAux` covers; a run in which
no column mutates diverges in Python and is modelled by `none`. -/
def repairLoop (table : Table) (pkCols : List String)
    (existing : List (List Value)) : Nat → Nat → Row → Option Row
  | 0, _, _ => none
  | f + 1, k, r =>
    if pkTuple pkCols r ∈ existing then
      match repairStep table pkCols k r with
      | none => none
      | some r' => repairLoop table pkCols existing f (k + 1) r'
    else some r

/-- Main generation loop of `_algorithmic_generate_data`: per row, pick
a template, mutate it, assign foreign keys, repair the primary key
against the used-tuple set, record the final tuple, append the row. -/
def genRowsAux (table : Table) (rand : Rand) (maps : List FkMapping)
    (pkCols : List String) (sample : List Row) :
    Nat → Nat → List (List Value) → List Row → Option (List Row)
  | 0, _, _, acc => some acc
  | remaining + 1, i, existing, acc =>
    let template := sample.getD (rand.templateIdx i % sample.length) []
    let row0 := mutateTemplate rand i table template
    let row1 := applyFkMappings rand i maps row0
    if pkCols = [] then
      genRowsAux table rand maps pkCols sample remaining (i + 1) existing (acc ++ [row1])
    else
      match repairLoop table pkCols existing (existing.length + 2) 1 row1 with
      | none => none
      | some row2 =>
        genRowsAux table rand maps pkCols sample remaining (i + 1)
          (pkTuple pkCols row2 :: existing) (acc ++ [row2])

/-- Algorithmic expansion `_algorithmic_generate_data`: an empty sample
yields no rows, otherwise `row_count` additional rows are generated
from the seeded used-tuple set. -/
def algorithmic_generate_data (schema : Schema) (table : Table) (row_count : Nat)
    (sample_rows : List Row) (rand : Rand) : Option (List Row) :=
  if sample_rows = [] then some []
  else
    let pkCols := match table.primary_key with
      | some pk => pk.columns
      | none => []
    let existing0 :=
      if pkCols = [] then [] else sample_rows.map (fun r => pkTuple pkCols r)
    match buildFkMappings schema table with
    | none => none
    | some maps =>
      genRowsAux table rand maps pkCols sample_rows row_count 0 existing0 []

/-- Oracle batch `_llm_generate_data`: the parsed rows for the
requested count, passed through the type-coercion layer (an oracle or
parse failure is the empty list, exactly the function's error path). -/
def llm_generate_data (oracle : Nat → List Row) (table : Table) (row_count : Nat) :
    List Row :=
  convert_data_types (oracle row_count) table

/-- Row-synthesis dispatch `_generate_synthetic_data`: one oracle batch
for `row_count <= 50`, otherwise a `min(20, row_count)` oracle seed
expanded algorithmically to the remaining count when the seed is
smaller than the request. -/
def generate_synthetic_data (schema : Schema) (table : Table) (row_count : Nat)
    (oracle : Nat → List Row) (rand : Rand) : Option (List Row) :=
  if row_count ≤ 50 then some (llm_generate_data oracle table row_count)
  else
    let sample := llm_generate_data oracle table (min 20 row_count)
    if sample.length < row_count then
      match algorithmic_generate_data schema table (row_count - sample.length)
        sample rand with
      | none => none
      | some additional => some (sample ++ additional)
    else some sample

/-- Reference-data passthrough `_use_reference_data`: the stored rows,
returned verbatim (`rows.copy()`), regardless of `row_count`. -/
def use_reference_data (table : Table) (row_count : Nat) : List Row :=
  match table.reference_data with
  | none => []
  | some rd => if rd.rows = [] then [] else rd.rows

/-- Per-table branch of `_generate_table_data` (without the CSV
writing): reference tables with non-empty attached data use it
directly, every other table goes through synthesis. -/
def generate_table_data (schema : Schema) (table : Table) (row_count : Nat)
    (oracle : Nat → List Row) (rand : Rand) : Option (List Row) :=
  if table.is_reference_table
      && (match table.reference_data with
          | some rd => !rd.rows.isEmpty
          | none => false) then
    some (use_reference_data table row_count)
  else generate_synthetic_data schema table row_count oracle rand

/-- Invariant tying the traversal's `visited` set to the emitted order:
visited names are pairwise distinct and the order contains exactly the
visited names, each exactly once. -/
def DfsInv (st : DfsState) : Prop :=
  st.visited.Nodup ∧ ∀ x, st.order.count x = if x ∈ st.visited then 1 else 0

/-- Name `d` occurs in the list strictly before name `x`. -/
def beforeIn (order : List String) (d x : String) : Prop :=
  d ∈ order ∧ x ∈ order ∧ order.indexOf d < order.indexOf x

/-- Every visited name outside the protected prefix `refN` has all of
its dependencies emitted strictly before it. -/
def DfsOrdered (deps : String → List String) (refN : List String)
    (st : DfsState) : Prop :=
  ∀ x, x ∈ st.visited → x ∉ refN → ∀ d ∈ deps x, beforeIn st.order d x

/-- Table names of a schema, in declaration order. -/
def Schema.tableNames (s : Schema) : List String :=
  s.tables.map (fun t => t.name)

/-- Schema invariant: table names are pairwise distinct (the spec
requires case-insensitive uniqueness, which implies this). -/
def Schema.namesDistinct (s : Schema) : Prop :=
  s.tableNames.Nodup

/-- Every foreign key references (by exact name) a table of the schema. -/
def Schema.resolvable (s : Schema) : Prop :=
  ∀ t ∈ s.tables, ∀ fk ∈ t.foreign_keys, ∃ u ∈ s.tables, u.name = fk.ref_table

/-- Acyclicity of the foreign-key dependency graph, witnessed by a rank
function that strictly decreases along every dependency edge (such a
function exists exactly when the finite graph has no directed cycle). -/
def Schema.rankedBy (s : Schema) (rank : String → Nat) : Prop :=
  ∀ t ∈ s.tables, ∀ d ∈ t.depsOf, rank d < rank t.name

/-- Foreign-key dependency edge of the claim statement: some table
named `x` references table name `y` through a foreign key. -/
def Schema.fkEdge (s : Schema) (x y : String) : Prop :=
  ∃ t ∈ s.tables, t.name = x ∧ y ∈ t.depsOf

/-- Dependency edge restricted to data-table sources: the edges the
scheduler's traversal actually follows (reference tables are
pre-visited, so their outgoing foreign keys impose no ordering). -/
def Schema.dataEdge (s : Schema) (x y : String) : Prop :=
  ∃ t ∈ s.tables, t.name = x ∧ t.is_reference_table = false ∧ y ∈ t.depsOf

/-- Claim C1 as stated: on an acyclic, fully resolvable schema the
order has each table exactly once, places every table after everything
reachable through its foreign keys, and puts the reference tables (in
declaration order) first. -/
def schedulerClaimC1 (s : Schema) : Prop :=
  (∀ t ∈ s.tables, (determine_generation_order s).count t.name = 1) ∧
  (∀ x y, Relation.TransGen s.fkEdge x y →
    beforeIn (determine_generation_order s) y x) ∧
  (∃ rest, determine_generation_order s
      = s.get_reference_tables.map (fun t => t.name) ++ rest ∧
    ∀ y ∈ rest, y ∈ s.get_data_tables.map (fun t => t.name))

/-- Fixture: a reference table (non-empty attached rows) that itself
declares a foreign key to the data table `Orders`. -/
def fxRef : Table :=
  { name := "MyRef"
    columns := [ { name := "code", data_type := ColumnType.VARCHAR } ]
    primary_key := some ⟨"pkRef", ["code"]⟩
    foreign_keys := [⟨"fkRefOrders", ["bid"], "Orders", ["id"], none, none⟩]
    reference_data := some ⟨[[("code", Value.vStr "A")]], none, none⟩ }

/-- Fixture: a plain data table with a single integer key column. -/
def fxOrders : Table :=
  { name := "Orders"
    columns := [ { name := "id", data_type := ColumnType.INTEGER } ]
    primary_key := some ⟨"pkOrders", ["id"]⟩ }

/-- Fixture schema for the C1 counterexample: acyclic and fully
resolvable, but the reference table points at a data table. -/
def fxRefFkSchema : Schema := { name := "S1", tables := [fxRef, fxOrders] }

/-- Rank function witnessing acyclicity of `fxRefFkSchema`. -/
def fxRefFkRank : String → Nat := fun n => if n = "Orders" then 0 else 1

/-- Fixture: a data table whose foreign key names a table that is not
in the schema. -/
def fxLines : Table :=
  { name := "Lines"
    columns := [ { name := "id", data_type := ColumnType.INTEGER } ]
    primary_key := some ⟨"pkLines", ["id"]⟩
    foreign_keys := [⟨"fkGhost", ["gid"], "Ghost", ["id"], none, none⟩] }

/-- Fixture schema for the C3 counterexample. -/
def fxGhostSchema : Schema := { name := "S3", tables := [fxLines] }

/-- Fixture: first half of a two-table foreign-key cycle. -/
def fxCycA : Table :=
  { name := "A"
    columns := [ { name := "id", data_type := ColumnType.INTEGER } ]
    foreign_keys := [⟨"fkAB", ["b"], "B", ["id"], none, none⟩] }

/-- Fixture: second half of a two-table foreign-key cycle. -/
def fxCycB : Table :=
  { name := "B"
    columns := [ { name := "id", data_type := ColumnType.INTEGER } ]
    foreign_keys := [⟨"fkBA", ["a"], "A", ["id"], none, none⟩] }

/-- Fixture schema with a pure 2-cycle between data tables. -/
def fxCycleSchema : Schema := { name := "S4", tables := [fxCycA, fxCycB] }

/-- Fixture: acyclic chain for the C1 witness — reference table `Tags`,
data table `Posts` referencing it, data table `Links` referencing
`Posts`. -/
def fxTags : Table :=
  { name := "Tags"
    columns := [ { name := "tag", data_type := ColumnType.VARCHAR } ]
    primary_key := some ⟨"pkTags", ["tag"]⟩
    reference_data := some ⟨[[("tag", Value.vStr "t1")]], none, none⟩ }

/-- Fixture data table referencing `Tags`. -/
def fxPosts : Table :=
  { name := "Posts"
    columns := [ { name := "id", data_type := ColumnType.INTEGER },
                 { name := "tag", data_type := ColumnType.VARCHAR } ]
    primary_key := some ⟨"pkPosts", ["id"]⟩
    foreign_keys := [⟨"fkPostsTags", ["tag"], "Tags", ["tag"], none, none⟩] }

/-- Fixture data table referencing `Posts`. -/
def fxLinks : Table :=
  { name := "Links"
    columns := [ { name := "id", data_type := ColumnType.INTEGER },
                 { name := "pid", data_type := ColumnType.INTEGER } ]
    primary_key := some ⟨"pkLinks", ["id"]⟩
    foreign_keys := [⟨"fkLinksPosts", ["pid"], "Posts", ["id"], none, none⟩] }

/-- Fixture schema for the C1 witness (declared data-first to make the
traversal reorder something). -/
def fxChainSchema : Schema := { name := "S5", tables := [fxLinks, fxPosts, fxTags] }

/-- Rank function witnessing acyclicity of `fxChainSchema`. -/
def fxChainRank : String → Nat := fun n =>
  if n = "Tags" then 0 else if n = "Posts" then 1 else 2

/-- Fixture: junction-like data table, 2 foreign-key column slots out
of 3 columns (the `Orders` scenario of the spec). -/
def fxJunction : Table :=
  { name := "OrderItems"
    columns := [ { name := "oid", data_type := ColumnType.INTEGER },
                 { name := "pid", data_type := ColumnType.INTEGER },
                 { name := "qty", data_type := ColumnType.INTEGER } ]
    foreign_keys := [⟨"fkJO", ["oid"], "Orders", ["id"], none, none⟩,
                     ⟨"fkJP", ["pid"], "Products", ["id"], none, none⟩] }

/-- Fixture: degenerate data table with no columns and no foreign keys. -/
def fxEmptyTable : Table := { name := "Empty", columns := [] }

/-- Fixture: reference data whose single explicit weight is 0. -/
def fxZeroWeight : ReferenceData := ⟨[[("weight", Value.vFloat 0)]], none, none⟩

/-- Fixture: reference data with two rows and no explicit weights. -/
def fxNoWeights : ReferenceData :=
  ⟨[[("a", Value.vStr "x")], [("a", Value.vStr "y")]], none, none⟩

/-- Fixture random source: template 0, jitter factor 1, letters x/y
(indices 23 and 24), first foreign-key row. -/
def fxRandXY : Rand :=
  { templateIdx := fun _ => 0
    factor := fun _ _ => 1
    letterPick := fun _ _ => (23, 24)
    fkPick := fun _ _ => 0 }

/-- Fixture: VARCHAR(3) column for the string-mutation counterexample. -/
def fxVarchar3 : Column :=
  { name := "c", data_type := ColumnType.VARCHAR, length := some 3 }

/-- Fixture: VARCHAR column without a declared length. -/
def fxVarcharNoLen : Column := { name := "c", data_type := ColumnType.VARCHAR }

/-- Fixture data table with a single VARCHAR primary-key column (its
name matches no reference indicator, so it is a data table). -/
def fxItems : Table :=
  { name := "Items"
    columns := [ { name := "id", data_type := ColumnType.VARCHAR } ]
    primary_key := some ⟨"pkItems", ["id"]⟩ }

/-- Fixture schema owning only the string-keyed `Items` table, used by
the hybrid-synthesis claims. -/
def fxPkSchema : Schema := { name := "SPK", tables := [fxItems] }

/-- Fixture oracle whose seed batch repeats one primary-key value. -/
def fxDupOracle : Nat → List Row := fun _ =>
  [[("id", Value.vStr "a")], [("id", Value.vStr "a")]]

/-- Fixture oracle with a duplicate-free seed batch. -/
def fxOkOracle : Nat → List Row := fun _ =>
  [[("id", Value.vStr "a")], [("id", Value.vStr "b")]]

/-- Fixture random source whose letter picks spread the generated key
suffixes apart (row `i` draws letters `i` and `i + 7`). -/
def fxSpreadRand : Rand :=
  { templateIdx := fun _ => 0
    factor := fun _ _ => 1
    letterPick := fun i _ => (i, i + 7)
    fkPick := fun _ _ => 0 }

/-- Concrete output of the hybrid synthesis on the duplicate-seed run. -/
def fxDupOut : List Row :=
  (generate_synthetic_data fxPkSchema fxItems 51 fxDupOracle fxSpreadRand).getD []

/-- Concrete output of the hybrid synthesis on the distinct-seed run. -/
def fxOkOut : List Row :=
  (generate_synthetic_data fxPkSchema fxItems 51 fxOkOracle fxSpreadRand).getD []

/-- Fixture table for the coercion and lookup claims: one column of
each relevant kind. -/
def fxConvTable : Table :=
  { name := "Conv"
    columns := [ { name := "n", data_type := ColumnType.INTEGER },
                 { name := "f", data_type := ColumnType.FLOAT },
                 { name := "b", data_type := ColumnType.BIT },
                 { name := "s", data_type := ColumnType.VARCHAR } ] }

/-- Fixture schema for the lookup witness. -/
def fxLookupSchema : Schema := { name := "SL", tables := [fxOrders, fxConvTable] }

/-! Helper lemmas. -/

lemma find?_some_first {α : Type} {p : α → Bool} :
    ∀ {l : List α} {a : α}, l.find? p = some a →
      p a = true ∧ ∃ pre post, l = pre ++ a :: post ∧ ∀ x ∈ pre, p x = false := by
  intro l
  induction l with
  | nil => intro a h; simp at h
  | cons b tl ih =>
    intro a h
    rw [List.find?_cons] at h
    cases hp : p b with
    | true =>
      rw [hp] at h
      injection h with h'
      subst h'
      exact ⟨hp, [], tl, rfl, by simp⟩
    | false =>
      rw [hp] at h
      obtain ⟨hpa, pre, post, hl, hpre⟩ := ih h
      refine ⟨hpa, b :: pre, post, by rw [hl]; rfl, ?_⟩
      intro x hx
      rcases List.mem_cons.mp hx with hx | hx
      · exact hx ▸ hp
      · exact hpre x hx

lemma is_reference_of_rows (t : Table) (rd : ReferenceData)
    (h : t.reference_data = some rd) (hne : rd.rows ≠ []) :
    t.is_reference_table = true := by
  unfold Table.is_reference_table
  rw [h]
  simp [List.length_pos.mpr hne]

/-! Claim C10. -/

/-- Claim C10: `Schema.get_table` and `Table.get_column` are total
case-insensitive first-match lookups: they return `none` exactly when
no element matches ignoring case, and a returned element is a member
matching the query ignoring case with every earlier element not
matching. -/
theorem c10_lookup_first_match_total :
    ∀ (s : Schema) (tb : Table) (q : String),
      (s.get_table q = none ↔ ∀ u ∈ s.tables, strLower u.name ≠ strLower q) ∧
      (∀ u, s.get_table q = some u →
        u ∈ s.tables ∧ strLower u.name = strLower q ∧
        ∃ pre post, s.tables = pre ++ u :: post ∧
          ∀ w ∈ pre, strLower w.name ≠ strLower q) ∧
      (tb.get_column q = none ↔ ∀ c ∈ tb.columns, strLower c.name ≠ strLower q) ∧
      (∀ c, tb.get_column q = some c →
        c ∈ tb.columns ∧ strLower c.name = strLower q ∧
        ∃ pre post, tb.columns = pre ++ c :: post ∧
          ∀ w ∈ pre, strLower w.name ≠ strLower q) := by
  intro s tb q
  refine ⟨?_, ?_, ?_, ?_⟩
  · unfold Schema.get_table
    rw [List.find?_eq_none]
    simp
  · intro u hu
    obtain ⟨hpa, pre, post, hl, hpre⟩ := find?_some_first hu
    refine ⟨by rw [hl]; simp, by simpa using hpa, pre, post, hl, ?_⟩
    intro w hw
    simpa using hpre w hw
  · unfold Table.get_column
    rw [List.find?_eq_none]
    simp
  · intro c hc
    obtain ⟨hpa, pre, post, hl, hpre⟩ := find?_some_first hc
    refine ⟨by rw [hl]; simp, by simpa using hpa, pre, post, hl, ?_⟩
    intro w hw
    simpa using hpre w hw

/-- Witness for C10 at a concrete schema: a case-different query
resolves to the first matching table, and an unknown name returns
`none` rather than raising. -/
theorem c10_witness :
    fxLookupSchema.get_table "GHOST" = none ∧
    (fxOrders ∈ fxLookupSchema.tables ∧ strLower fxOrders.name = strLower "ORDERS") ∧
    fxConvTable.get_column "ghost" = none := by
  refine ⟨?_, ?_, ?_⟩
  · exact (c10_lookup_first_match_total fxLookupSchema fxConvTable "GHOST").1.mpr
      (by decide)
  · have h := (c10_lookup_first_match_total fxLookupSchema fxConvTable "ORDERS").2.1
      fxOrders (by decide)
    exact ⟨h.1, h.2.1⟩
  · exact (c10_lookup_first_match_total fxLookupSchema fxConvTable "ghost").2.2.1.mpr
      (by decide)

/-! Claim C9. -/

lemma convertValue_idem (table : Table) (c : String) (v : Value) :
    convertValue table c (convertValue table c v) = convertValue table c v := by
  cases hcol : table.get_column c with
  | none => simp [convertValue, hcol]
  | some column =>
    by_cases hnull : v = Value.vNull
    · subst hnull; simp [convertValue, hcol]
    · by_cases hnum : column.is_numeric = true
      · by_cases hik : isIntKind column.data_type = true
        · cases hpi : pyInt v with
          | some n =>
            have h1 : convertValue table c v = Value.vInt n := by
              simp [convertValue, hcol, hnull, hnum, hik, hpi]
            rw [h1]
            simp [convertValue, hcol, hnum, hik, pyInt]
          | none =>
            have h1 : convertValue table c v = v := by
              simp [convertValue, hcol, hnull, hnum, hik, hpi]
            rw [h1]
            exact h1
        · cases hpf : pyFloat v with
          | some q =>
            have h1 : convertValue table c v = Value.vFloat q := by
              simp [convertValue, hcol, hnull, hnum, hik, hpf]
            rw [h1]
            simp [convertValue, hcol, hnum, hik, pyFloat]
          | none =>
            have h1 : convertValue table c v = v := by
              simp [convertValue, hcol, hnull, hnum, hik, hpf]
            rw [h1]
            exact h1
      · by_cases hbool : column.is_boolean = true
        · cases v with
          | vBool b =>
            have h1 : convertValue table c (Value.vBool b) = Value.vBool b := by
              simp [convertValue, hcol, hnum, hbool]
            rw [h1]; exact h1
          | vNull => exact absurd rfl hnull
          | vInt n =>
            by_cases htt : strLower (pyStr (Value.vInt n)) ∈ booleanTrueTokens
            · have h1 : convertValue table c (Value.vInt n) = Value.vBool true := by
                simp [convertValue, hcol, hnum, hbool, htt]
              rw [h1]; simp [convertValue, hcol, hnum, hbool]
            · by_cases hff : strLower (pyStr (Value.vInt n)) ∈ booleanFalseTokens
              · have h1 : convertValue table c (Value.vInt n) = Value.vBool false := by
                  simp [convertValue, hcol, hnum, hbool, htt, hff]
                rw [h1]; simp [convertValue, hcol, hnum, hbool]
              · have h1 : convertValue table c (Value.vInt n) = Value.vInt n := by
                  simp [convertValue, hcol, hnum, hbool, htt, hff]
                rw [h1]; exact h1
          | vFloat q =>
            by_cases htt : strLower (pyStr (Value.vFloat q)) ∈ booleanTrueTokens
            · have h1 : convertValue table c (Value.vFloat q) = Value.vBool true := by
                simp [convertValue, hcol, hnum, hbool, htt]
              rw [h1]; simp [convertValue, hcol, hnum, hbool]
            · by_cases hff : strLower (pyStr (Value.vFloat q)) ∈ booleanFalseTokens
              · have h1 : convertValue table c (Value.vFloat q) = Value.vBool false := by
                  simp [convertValue, hcol, hnum, hbool, htt, hff]
                rw [h1]; simp [convertValue, hcol, hnum, hbool]
              · have h1 : convertValue table c (Value.vFloat q) = Value.vFloat q := by
                  simp [convertValue, hcol, hnum, hbool, htt, hff]
                rw [h1]; exact h1
          | vStr s =>
            by_cases htt : strLower (pyStr (Value.vStr s)) ∈ booleanTrueTokens
            · have h1 : convertValue table c (Value.vStr s) = Value.vBool true := by
                simp [convertValue, hcol, hnum, hbool, htt]
              rw [h1]; simp [convertValue, hcol, hnum, hbool]
            · by_cases hff : strLower (pyStr (Value.vStr s)) ∈ booleanFalseTokens
              · have h1 : convertValue table c (Value.vStr s) = Value.vBool false := by
                  simp [convertValue, hcol, hnum, hbool, htt, hff]
                rw [h1]; simp [convertValue, hcol, hnum, hbool]
              · have h1 : convertValue table c (Value.vStr s) = Value.vStr s := by
                  simp [convertValue, hcol, hnum, hbool, htt, hff]
                rw [h1]; exact h1
        · have h1 : convertValue table c v = Value.vStr (pyStr v) := by
            simp [convertValue, hcol, hnull, hnum, hbool]
          rw [h1]
          simp [convertValue, hcol, hnum, hbool, pyStr]

/-- Claim C9: type coercion is idempotent — applying
`_convert_data_types` to its own output for the same table returns
that output unchanged. -/
theorem c9_type_coercion_idempotent :
    ∀ (table : Table) (data : List Row),
      convert_data_types (convert_data_types data table) table
        = convert_data_types data table := by
  intro table data
  unfold convert_data_types convertRow
  rw [List.map_map]
  refine List.map_congr_left ?_
  intro r _
  simp only [Function.comp, List.map_map]
  refine List.map_congr_left ?_
  intro kv _
  simp only [Function.comp]
  rw [convertValue_idem]

/-! Claim C7. -/

/-- Claim C7: a reference table with non-empty attached reference data
synthesizes to exactly the stored rows, in order, for every requested
row count (which is ignored); the classifier necessarily marks such a
table as a reference table. -/
theorem c7_reference_rows_verbatim :
    ∀ (schema : Schema) (table : Table) (rd : ReferenceData) (row_count : Nat)
      (oracle : Nat → List Row) (rand : Rand),
      table.reference_data = some rd → rd.rows ≠ [] →
      table.is_reference_table = true ∧
      generate_table_data schema table row_count oracle rand = some rd.rows := by
  intro schema table rd row_count oracle rand hrd hrows
  have href := is_reference_of_rows table rd hrd hrows
  refine ⟨href, ?_⟩
  unfold generate_table_data
  rw [href, hrd]
  simp only [List.isEmpty_iff, hrows]
  simp [use_reference_data, hrd, hrows]

/-- Witness for C7: the concrete reference table's single row is
returned verbatim for an arbitrary row count. -/
theorem c7_witness :
    fxRef.is_reference_table = true ∧
    generate_table_data fxRefFkSchema fxRef 99 fxDupOracle fxRandXY
      = some [[("code", Value.vStr "A")]] :=
  c7_reference_rows_verbatim fxRefFkSchema fxRef ⟨[[("code", Value.vStr "A")]], none, none⟩
    99 fxDupOracle fxRandXY rfl (by decide)

/-! Claim C5. -/

/-- Counterexample for C5 as stated: the zero-column, zero-foreign-key
data table satisfies "foreign-key columns ≥ half the column count"
(0 ≥ 0), yet the code assigns it 50 rows, not 25 — the junction rule
additionally requires at least one foreign-key column. -/
theorem c5_counterexample :
    fxEmptyTable.is_reference_table = false ∧
    2 * fkColumnSlots fxEmptyTable ≥ fxEmptyTable.columns.length ∧
    default_row_count fxEmptyTable = 50 ∧
    default_row_count fxEmptyTable ≠ 25 := by decide

/-- Claim C5 (amended): reference tables default to their attached row
count when non-empty and to 5 otherwise; a data table defaults to 25
exactly when it has at least one foreign-key column slot and the slot
count is at least half its column count, and to 50 otherwise. -/
theorem c5_default_row_counts :
    ∀ t : Table,
      (∀ rd, t.reference_data = some rd → rd.rows ≠ [] →
        default_row_count t = rd.rows.length) ∧
      (t.is_reference_table = true →
        (t.reference_data = none ∨ ∃ rd, t.reference_data = some rd ∧ rd.rows = []) →
        default_row_count t = 5) ∧
      (t.is_reference_table = false →
        ((default_row_count t = 25 ↔
            0 < fkColumnSlots t ∧ t.columns.length ≤ 2 * fkColumnSlots t) ∧
         (default_row_count t = 50 ↔
            ¬(0 < fkColumnSlots t ∧ t.columns.length ≤ 2 * fkColumnSlots t)))) := by
  intro t
  refine ⟨?_, ?_, ?_⟩
  · intro rd hrd hne
    have href := is_reference_of_rows t rd hrd hne
    unfold default_row_count
    rw [href, hrd]
    simp [List.length_eq_zero, hne]
  · intro href hempty
    unfold default_row_count
    rw [href]
    rcases hempty with h | ⟨rd, hrd, hrows⟩
    · rw [h]; simp
    · rw [hrd]; simp [hrows]
  · intro href
    have hd : default_row_count t
        = if 0 < fkColumnSlots t ∧ t.columns.length ≤ 2 * fkColumnSlots t
          then 25 else 50 := by
      simp [default_row_count, href, ge_iff_le]
    by_cases hc : 0 < fkColumnSlots t ∧ t.columns.length ≤ 2 * fkColumnSlots t
    · rw [hd, if_pos hc]
      exact ⟨⟨fun _ => hc, fun _ => rfl⟩,
             ⟨fun h => absurd h (by decide), fun hnc => absurd hc hnc⟩⟩
    · rw [hd, if_neg hc]
      exact ⟨⟨fun h => absurd h (by decide), fun h => absurd h hc⟩,
             ⟨fun _ => hc, fun _ => rfl⟩⟩

/-- Witness for C5: the junction-style fixture (2 foreign-key column
slots of 3 columns) defaults to 25 rows, via the amended rule. -/
theorem c5_witness :
    fxJunction.is_reference_table = false ∧
    fkColumnSlots fxJunction = 2 ∧
    fxJunction.columns.length = 3 ∧
    default_row_count fxJunction = 25 := by
  refine ⟨by decide, by decide, by decide, ?_⟩
  exact ((c5_default_row_counts fxJunction).2.2 (by decide)).1.mpr (by decide)

/-! Claim C6. -/

lemma sum_map_div (l : List Rat) (t : Rat) :
    (l.map (fun w => w / t)).sum = l.sum / t := by
  induction l with
  | nil => simp
  | cons a tl ih => simp [ih, add_div]

/-- Counterexample for C6 as stated: a non-empty row set whose single
explicit weight is 0 (non-negative, as the invariant allows) produces
the unnormalized mapping `{0: 0.0}` whose weights sum to 0, not 1 —
the code skips normalization whenever the extracted total is not
positive. -/
theorem c6_counterexample :
    fxZeroWeight.rows ≠ [] ∧
    fxZeroWeight.get_weighted_distribution = some [(0, 0)] ∧
    (([((0 : Nat), (0 : Rat))]).map Prod.snd).sum ≠ 1 := by
  refine ⟨by decide, ?_, by norm_num⟩
  have hw : fxZeroWeight.hasExplicitWeights = true := by decide
  have hraw : fxZeroWeight.rawWeights = some [0] := by decide
  unfold ReferenceData.get_weighted_distribution
  rw [if_pos hw, hraw]
  norm_num [List.enum]

/-- Claim C6 (amended): the weighted distribution maps the empty row
set to the empty mapping and assigns equal weights `1/N` when no
explicit weights exist; the weights sum to 1 for a non-empty row set
provided either no explicit weights exist or the extracted explicit
weights have a positive total. -/
theorem c6_weighted_distribution :
    ∀ (rd : ReferenceData) (dist : List (Nat × Rat)),
      rd.get_weighted_distribution = some dist →
      (rd.rows = [] → dist = []) ∧
      (rd.hasExplicitWeights = false →
        dist = (List.range rd.rows.length).map
          (fun i => (i, (1 : Rat) / rd.rows.length))) ∧
      (rd.rows ≠ [] → rd.hasExplicitWeights = false →
        (dist.map Prod.snd).sum = 1) ∧
      (rd.hasExplicitWeights = true →
        ∀ ws, rd.rawWeights = some ws → 0 < ws.sum →
          (dist.map Prod.snd).sum = 1) := by
  intro rd dist hdist
  by_cases hw : rd.hasExplicitWeights = true
  · unfold ReferenceData.get_weighted_distribution at hdist
    rw [if_pos hw] at hdist
    cases hraw : rd.rawWeights with
    | none => rw [hraw] at hdist; exact absurd hdist (by simp)
    | some ws =>
      rw [hraw] at hdist
      injection hdist with hdist
      refine ⟨?_, ?_, ?_, ?_⟩
      · intro hrows
        exfalso
        have hwf : rd.hasExplicitWeights = false := by
          unfold ReferenceData.hasExplicitWeights
          rw [hrows]
          rfl
        rw [hwf] at hw
        exact Bool.false_ne_true hw
      · intro hfalse; rw [hfalse] at hw; exact absurd hw (by simp)
      · intro _ hfalse; rw [hfalse] at hw; exact absurd hw (by simp)
      · intro _ ws' hws' hpos
        injection hws' with hinj
        subst hinj
        rw [if_pos hpos] at hdist
        rw [← hdist, List.enum_map_snd, sum_map_div]
        exact div_self (ne_of_gt hpos)
  · have hwf : rd.hasExplicitWeights = false := by
      cases h : rd.hasExplicitWeights
      · rfl
      · exact absurd h hw
    unfold ReferenceData.get_weighted_distribution at hdist
    rw [hwf] at hdist
    simp only [Bool.false_eq_true, if_false] at hdist
    injection hdist with hdist
    refine ⟨?_, ?_, ?_, ?_⟩
    · intro hrows
      rw [← hdist, hrows]
      rfl
    · intro _
      rw [← hdist]
      by_cases hn : rd.rows.length = 0
      · rw [hn]; rfl
      · have hfun : (fun i => ((i : Nat),
            if rd.rows.length ≠ 0 then (1 : Rat) / rd.rows.length else 0))
            = (fun i => ((i : Nat), (1 : Rat) / rd.rows.length)) := by
          funext i
          rw [if_pos hn]
        rw [hfun]
    · intro hne _
      have hn : rd.rows.length ≠ 0 := by
        intro h; exact hne (List.length_eq_zero.mp h)
      have hfun : (fun i => ((i : Nat),
          if rd.rows.length ≠ 0 then (1 : Rat) / rd.rows.length else 0))
          = (fun i => ((i : Nat), (1 : Rat) / rd.rows.length)) := by
        funext i
        rw [if_pos hn]
      rw [← hdist, hfun]
      have hmap : (((List.range rd.rows.length).map
          (fun i => ((i : Nat), (1 : Rat) / rd.rows.length))).map Prod.snd)
          = List.replicate rd.rows.length ((1 : Rat) / rd.rows.length) := by
        simp [List.map_map, Function.comp_def, List.map_const']
      rw [hmap, List.sum_replicate, nsmul_eq_mul]
      have hcast : ((rd.rows.length : Rat)) ≠ 0 := by
        exact_mod_cast hn
      field_simp
    · intro h; rw [h] at hwf; exact absurd hwf (by simp)

/-- Witness for C6: the weight-free two-row fixture gets the equal
weights 1/2 and 1/2, which sum to 1 by the amended theorem. -/
theorem c6_witness :
    fxNoWeights.hasExplicitWeights = false ∧
    fxNoWeights.get_weighted_distribution = some [(0, 1/2), (1, 1/2)] ∧
    (([((0 : Nat), (1 : Rat)/2), (1, (1 : Rat)/2)]).map Prod.snd).sum = 1 := by
  have hw : fxNoWeights.hasExplicitWeights = false := by decide
  have h : fxNoWeights.get_weighted_distribution = some [(0, 1/2), (1, 1/2)] := by
    unfold ReferenceData.get_weighted_distribution
    rw [hw]
    simp only [Bool.false_eq_true, if_false, fxNoWeights]
    norm_num [List.range_succ]
  refine ⟨hw, h, ?_⟩
  have hsum := (c6_weighted_distribution fxNoWeights _ h).2.2.1 (by decide) hw
  simpa using hsum

/-! Claim C8. -/

lemma is_string_not_numeric (column : Column) (h : column.is_string = true) :
    column.is_numeric = false := by
  cases htype : column.data_type <;>
    simp [Column.is_string, htype] at h ⊢ <;>
    simp [Column.is_numeric, htype]

/-- Counterexample for C8 as stated: for a VARCHAR(3) column and
template string "abcdef", the code produces "exy" — the *last* three
characters of "abcde" + "xy" (Python slice `[-length:]`) — whereas the
claim's right-truncation (keep leading characters) would give "abc". -/
theorem c8_counterexample :
    fxVarchar3.is_string = true ∧
    fxVarchar3.length = some 3 ∧
    mutateValue fxRandXY 0 fxVarchar3 "c" (Value.vStr "abcdef") = Value.vStr "exy" ∧
    mutateValue fxRandXY 0 fxVarchar3 "c" (Value.vStr "abcdef")
      ≠ Value.vStr (strTake (strTake "abcdef" 5 ++ twoLetters fxRandXY 0 "c") 3) := by
  decide

/-- Claim C8 (amended): during expansion a string-typed template string
becomes its first 5 characters plus 2 random lowercase letters; when a
nonzero length is declared the result is *left*-truncated to the last
`length` characters (a suffix of the built string, the whole string if
shorter), and a declared length of 0 is falsy in Python, so no
truncation is applied. -/
theorem c8_string_mutation :
    ∀ (rand : Rand) (i : Nat) (column : Column) (cname s : String),
      column.is_string = true →
      (column.length = none →
        mutateValue rand i column cname (Value.vStr s)
          = Value.vStr (strTake s 5 ++ twoLetters rand i cname)) ∧
      (∀ l, column.length = some l → l ≠ 0 →
        mutateValue rand i column cname (Value.vStr s)
          = Value.vStr (pyTakeLast (strTake s 5 ++ twoLetters rand i cname) l) ∧
        ∃ pre : String,
          strTake s 5 ++ twoLetters rand i cname
            = pre ++ pyTakeLast (strTake s 5 ++ twoLetters rand i cname) l) ∧
      (column.length = some 0 →
        mutateValue rand i column cname (Value.vStr s)
          = Value.vStr (strTake s 5 ++ twoLetters rand i cname)) ∧
      ((twoLetters rand i cname).data.length = 2 ∧
        ∀ ch ∈ (twoLetters rand i cname).data, ch ∈ lowercaseAlphabet) := by
  intro rand i column cname s hstr
  have hnum := is_string_not_numeric column hstr
  refine ⟨?_, ?_, ?_, rfl, ?_⟩
  · intro hlen
    simp [mutateValue, hnum, hstr, hlen]
  · intro l hlen hl0
    constructor
    · simp [mutateValue, hnum, hstr, hlen, hl0]
    · refine ⟨⟨(strTake s 5 ++ twoLetters rand i cname).data.take
          ((strTake s 5 ++ twoLetters rand i cname).data.length - l)⟩, ?_⟩
      show (strTake s 5 ++ twoLetters rand i cname) = _
      have happ : ∀ (a b : List Char), (⟨a⟩ ++ ⟨b⟩ : String) = ⟨a ++ b⟩ :=
        fun a b => rfl
      cases hcore : (strTake s 5 ++ twoLetters rand i cname) with
      | mk core =>
        rw [pyTakeLast, happ, List.take_append_drop]
  · intro hlen
    simp [mutateValue, hnum, hstr, hlen]
  · intro ch hch
    have hlt1 : (rand.letterPick i cname).1 % 26 < lowercaseAlphabet.length :=
      Nat.mod_lt _ (by decide)
    have hlt2 : (rand.letterPick i cname).2 % 26 < lowercaseAlphabet.length :=
      Nat.mod_lt _ (by decide)
    have hd : (twoLetters rand i cname).data
        = [lowercaseAlphabet.getD ((rand.letterPick i cname).1 % 26) 'a',
           lowercaseAlphabet.getD ((rand.letterPick i cname).2 % 26) 'a'] := rfl
    rw [hd] at hch
    simp only [List.mem_cons, List.not_mem_nil, or_false] at hch
    rcases hch with h | h
    · rw [h, List.getD_eq_get lowercaseAlphabet 'a' hlt1]
      exact List.get_mem _ _ _
    · rw [h, List.getD_eq_get lowercaseAlphabet 'a' hlt2]
      exact List.get_mem _ _ _

/-- Witness for C8: with no declared length the concrete mutation
produces the first five template characters plus the two chosen
letters. -/
theorem c8_witness :
    mutateValue fxRandXY 0 fxVarcharNoLen "c" (Value.vStr "abcdef")
      = Value.vStr (strTake "abcdef" 5 ++ twoLetters fxRandXY 0 "c") :=
  (c8_string_mutation fxRandXY 0 fxVarcharNoLen "c" "abcdef" (by decide)).1 rfl

/-! Claim C2. -/

lemma repairLoop_not_mem (table : Table) (pkCols : List String)
    (existing : List (List Value)) :
    ∀ (f k : Nat) (r r' : Row),
      repairLoop table pkCols existing f k r = some r' →
      pkTuple pkCols r' ∉ existing := by
  intro f
  induction f with
  | zero =>
    intro k r r' h
    exact absurd h (by simp [repairLoop])
  | succ f ih =>
    intro k r r' h
    simp only [repairLoop] at h
    by_cases hm : pkTuple pkCols r ∈ existing
    · rw [if_pos hm] at h
      cases hs : repairStep table pkCols k r with
      | none => rw [hs] at h; exact absurd h (by simp)
      | some r2 => rw [hs] at h; exact ih (k + 1) r2 r' h
    · rw [if_neg hm] at h
      injection h with h
      subst h
      exact hm

lemma genRowsAux_spec (table : Table) (rand : Rand) (maps : List FkMapping)
    (pkCols : List String) (sample : List Row) (hpk : pkCols ≠ []) :
    ∀ (remaining i : Nat) (existing : List (List Value)) (acc out : List Row),
      genRowsAux table rand maps pkCols sample remaining i existing acc
        = some out →
      ∃ gen, out = acc ++ gen ∧ gen.length = remaining ∧
        ∀ base : List Row,
          (∀ r ∈ base, pkTuple pkCols r ∈ existing) →
          (base.map (pkTuple pkCols)).Nodup →
          ((base ++ gen).map (pkTuple pkCols)).Nodup := by
  intro remaining
  induction remaining with
  | zero =>
    intro i existing acc out h
    simp only [genRowsAux] at h
    injection h with h
    subst h
    exact ⟨[], by simp, rfl, fun base _ hnd => by simpa using hnd⟩
  | succ remaining ih =>
    intro i existing acc out h
    simp only [genRowsAux] at h
    rw [if_neg hpk] at h
    cases hr : repairLoop table pkCols existing (existing.length + 2) 1
        (applyFkMappings rand i maps
          (mutateTemplate rand i table
            (sample.getD (rand.templateIdx i % sample.length) []))) with
    | none => rw [hr] at h; exact absurd h (by simp)
    | some row2 =>
      rw [hr] at h
      obtain ⟨gen, hout, hlen, hbase⟩ := ih (i + 1) _ _ out h
      have hnot := repairLoop_not_mem table pkCols existing _ _ _ _ hr
      refine ⟨row2 :: gen, ?_, by simp [hlen], ?_⟩
      · rw [hout, List.append_assoc]
        rfl
      · intro base hmem hnd
        have h1 : ∀ r ∈ base ++ [row2],
            pkTuple pkCols r ∈ (pkTuple pkCols row2 :: existing) := by
          intro r hr2
          rcases List.mem_append.mp hr2 with hb | hb
          · exact List.mem_cons_of_mem _ (hmem r hb)
          · rcases List.mem_singleton.mp hb with rfl
            exact List.mem_cons_self _ _
        have h2 : ((base ++ [row2]).map (pkTuple pkCols)).Nodup := by
          rw [List.map_append, List.nodup_append]
          refine ⟨hnd, by simp, ?_⟩
          intro tu htu
          simp only [List.map_cons, List.map_nil, List.mem_singleton]
          intro htu2
          rcases List.mem_map.mp htu with ⟨r, hrb, hrt⟩
          rw [htu2] at hrt
          exact hnot (hrt ▸ hmem r hrb)
        have h3 := hbase (base ++ [row2]) h1 h2
        rw [List.append_assoc] at h3
        exact h3

/-- Counterexample for C2 as stated: the oracle seed itself may repeat
a primary-key tuple (the code only seeds its used-tuple *set* from the
sample, never deduplicating the sample), so a hybrid run returns
exactly N rows whose PK tuples are *not* pairwise distinct. -/
theorem c2_counterexample :
    (50 : Nat) < 51 ∧
    fxItems.primary_key = some ⟨"pkItems", ["id"]⟩ ∧
    llm_generate_data fxDupOracle fxItems (min 20 51) ≠ [] ∧
    (llm_generate_data fxDupOracle fxItems (min 20 51)).length < 51 ∧
    generate_synthetic_data fxPkSchema fxItems 51 fxDupOracle fxSpreadRand
      = some fxDupOut ∧
    fxDupOut.length = 51 ∧
    ¬ (fxDupOut.map (pkTuple ["id"])).Nodup := by
  decide

/-- Claim C2 (amended): when the oracle seed of a hybrid run
(`row_count > 50`) is non-empty, smaller than the request, and has
pairwise-distinct primary-key tuples, every successful run returns
exactly `row_count` rows whose primary-key tuples are pairwise
distinct (collisions being repaired by the incrementing counter added
to numeric and appended to string key columns). -/
theorem c2_expansion_pk_unique :
    ∀ (schema : Schema) (table : Table) (pk : PrimaryKey) (N : Nat)
      (oracle : Nat → List Row) (rand : Rand) (seed out : List Row),
      table.primary_key = some pk → pk.columns ≠ [] →
      50 < N →
      llm_generate_data oracle table (min 20 N) = seed →
      seed ≠ [] → seed.length < N →
      (seed.map (pkTuple pk.columns)).Nodup →
      generate_synthetic_data schema table N oracle rand = some out →
      out.length = N ∧ (out.map (pkTuple pk.columns)).Nodup := by
  intro schema table pk N oracle rand seed out hpk hpkc h50 hseed hne hlt hnd hgen
  unfold generate_synthetic_data at hgen
  rw [if_neg (by omega : ¬ N ≤ 50)] at hgen
  simp only [hseed] at hgen
  rw [if_pos hlt] at hgen
  unfold algorithmic_generate_data at hgen
  rw [if_neg hne] at hgen
  simp only [hpk] at hgen
  rw [if_neg hpkc] at hgen
  cases hmap : buildFkMappings schema table with
  | none => rw [hmap] at hgen; exact absurd hgen (by simp)
  | some maps =>
    rw [hmap] at hgen
    have hgen2 : (match genRowsAux table rand maps pk.columns seed
          (N - seed.length) 0 (seed.map (fun r => pkTuple pk.columns r)) [] with
        | none => none
        | some additional => some (seed ++ additional)) = some out := hgen
    clear hgen
    cases halg : genRowsAux table rand maps pk.columns seed (N - seed.length) 0
        (seed.map (fun r => pkTuple pk.columns r)) [] with
    | none => rw [halg] at hgen2; exact absurd hgen2 (by simp)
    | some additional =>
      rw [halg] at hgen2
      injection hgen2 with hgen
      obtain ⟨gen, hadd, hlen, hbase⟩ :=
        genRowsAux_spec table rand maps pk.columns seed hpkc _ _ _ _ _ halg
      rw [List.nil_append] at hadd
      subst hadd
      constructor
      · rw [← hgen, List.length_append, hlen]
        omega
      · rw [← hgen]
        refine hbase seed ?_ hnd
        intro r hr
        exact List.mem_map.mpr ⟨r, hr, rfl⟩

/-- Witness for C2: the distinct-seed fixture run returns 51 rows with
pairwise-distinct primary-key tuples. -/
theorem c2_witness :
    generate_synthetic_data fxPkSchema fxItems 51 fxOkOracle fxSpreadRand
      = some fxOkOut ∧
    fxOkOut.length = 51 ∧ (fxOkOut.map (pkTuple ["id"])).Nodup := by
  have hgen : generate_synthetic_data fxPkSchema fxItems 51 fxOkOracle fxSpreadRand
      = some fxOkOut := by decide
  have h := c2_expansion_pk_unique fxPkSchema fxItems ⟨"pkItems", ["id"]⟩ 51
    fxOkOracle fxSpreadRand (llm_generate_data fxOkOracle fxItems (min 20 51))
    fxOkOut rfl (by decide) (by decide) rfl (by decide) (by decide) (by decide) hgen
  exact ⟨hgen, h.1, h.2⟩

/-! Scheduler lemmas (claims C1, C3, C4). -/

lemma mem_refTableFold :
    ∀ (fks : List ForeignKey) (acc : List String) (x : String),
      x ∈ fks.foldl
        (fun a fk => if fk.ref_table ∈ a then a else a ++ [fk.ref_table]) acc ↔
      x ∈ acc ∨ ∃ fk ∈ fks, fk.ref_table = x := by
  intro fks
  induction fks with
  | nil => intro acc x; simp
  | cons fk rest ih =>
    intro acc x
    rw [List.foldl_cons]
    by_cases hm : fk.ref_table ∈ acc
    · rw [if_pos hm, ih]
      constructor
      · rintro (h | h)
        · exact Or.inl h
        · obtain ⟨fk', h1, h2⟩ := h
          exact Or.inr ⟨fk', List.mem_cons_of_mem _ h1, h2⟩
      · rintro (h | ⟨fk', hfk', hrt⟩)
        · exact Or.inl h
        · rcases List.mem_cons.mp hfk' with rfl | hfk'
          · exact Or.inl (hrt ▸ hm)
          · exact Or.inr ⟨fk', hfk', hrt⟩
    · rw [if_neg hm, ih]
      constructor
      · rintro (h | h)
        · rcases List.mem_append.mp h with h | h
          · exact Or.inl h
          · rcases List.mem_singleton.mp h with rfl
            exact Or.inr ⟨fk, by simp, rfl⟩
        · obtain ⟨fk', h1, h2⟩ := h
          exact Or.inr ⟨fk', List.mem_cons_of_mem _ h1, h2⟩
      · rintro (h | ⟨fk', hfk', hrt⟩)
        · exact Or.inl (List.mem_append.mpr (Or.inl h))
        · rcases List.mem_cons.mp hfk' with rfl | hfk'
          · exact Or.inl (List.mem_append.mpr (Or.inr (by simp [hrt])))
          · exact Or.inr ⟨fk', hfk', hrt⟩

lemma depsOf_mem_iff (t : Table) (x : String) :
    x ∈ t.depsOf ↔ ∃ fk ∈ t.foreign_keys, fk.ref_table = x := by
  unfold Table.depsOf
  rw [mem_refTableFold]
  simp

lemma mem_depsLookupFold :
    ∀ (ts : List Table) (nm : String) (acc : List String) (x : String),
      x ∈ ts.foldl
        (fun acc t =>
          if t.name = nm then
            t.foreign_keys.foldl
              (fun a fk => if fk.ref_table ∈ a then a else a ++ [fk.ref_table]) acc
          else acc) acc ↔
      x ∈ acc ∨ ∃ t ∈ ts, t.name = nm ∧ ∃ fk ∈ t.foreign_keys, fk.ref_table = x := by
  intro ts
  induction ts with
  | nil => intro nm acc x; simp
  | cons t rest ih =>
    intro nm acc x
    rw [List.foldl_cons]
    by_cases hn : t.name = nm
    · rw [if_pos hn, ih, mem_refTableFold]
      constructor
      · rintro ((h | h) | h)
        · exact Or.inl h
        · exact Or.inr ⟨t, by simp, hn, h⟩
        · obtain ⟨u, hu, hnm, hfk⟩ := h
          exact Or.inr ⟨u, List.mem_cons_of_mem _ hu, hnm, hfk⟩
      · rintro (h | ⟨u, hu, hnm, hfk⟩)
        · exact Or.inl (Or.inl h)
        · rcases List.mem_cons.mp hu with rfl | hu
          · exact Or.inl (Or.inr hfk)
          · exact Or.inr ⟨u, hu, hnm, hfk⟩
    · rw [if_neg hn, ih]
      constructor
      · rintro (h | ⟨u, hu, hnm, hfk⟩)
        · exact Or.inl h
        · exact Or.inr ⟨u, List.mem_cons_of_mem _ hu, hnm, hfk⟩
      · rintro (h | ⟨u, hu, hnm, hfk⟩)
        · exact Or.inl h
        · rcases List.mem_cons.mp hu with rfl | hu
          · exact absurd hnm hn
          · exact Or.inr ⟨u, hu, hnm, hfk⟩

lemma depsLookup_mem_iff (s : Schema) (nm x : String) :
    x ∈ s.depsLookup nm ↔
      ∃ t ∈ s.tables, t.name = nm ∧ x ∈ t.depsOf := by
  unfold Schema.depsLookup
  rw [mem_depsLookupFold]
  simp only [List.not_mem_nil, false_or]
  constructor
  · rintro ⟨t, ht, hn, hfk⟩
    exact ⟨t, ht, hn, (depsOf_mem_iff t x).mpr hfk⟩
  · rintro ⟨t, ht, hn, hd⟩
    exact ⟨t, ht, hn, (depsOf_mem_iff t x).mp hd⟩

lemma depsLookup_ghost (s : Schema) (nm : String)
    (h : nm ∉ s.tableNames) : s.depsLookup nm = [] := by
  rw [List.eq_nil_iff_forall_not_mem]
  intro x hx
  obtain ⟨t, ht, hn, _⟩ := (depsLookup_mem_iff s nm x).mp hx
  exact h (hn ▸ List.mem_map.mpr ⟨t, ht, rfl⟩)

lemma visit_basic (deps : String → List String) :
    ∀ (n : Nat) (s : DfsState) (t : String),
      (visitFuel deps n s t).temp = s.temp ∧
      (∀ x, x ∈ s.visited → x ∈ (visitFuel deps n s t).visited) ∧
      (∀ x, x ∈ (visitFuel deps n s t).visited → x ∈ s.visited ∨ x ∉ s.temp) ∧
      (∃ l, (visitFuel deps n s t).order = s.order ++ l) ∧
      (DfsInv s → DfsInv (visitFuel deps n s t)) ∧
      (∀ V : List String, t ∈ V → (∀ a b, b ∈ deps a → b ∈ V) →
        ∀ x, x ∈ (visitFuel deps n s t).visited → x ∈ s.visited ∨ x ∈ V) ∧
      (1 ≤ n → t ∈ (visitFuel deps n s t).visited ∨ t ∈ s.temp) := by
  intro n
  induction n with
  | zero =>
    intro s t
    exact ⟨rfl, fun x h => h, fun x h => Or.inl h,
      ⟨[], (List.append_nil s.order).symm⟩, fun h => h,
      fun V _ _ x h => Or.inl h, fun h => absurd h (by omega)⟩
  | succ n ih =>
    intro s t
    by_cases hv : t ∈ s.visited
    · have he : visitFuel deps (n + 1) s t = s := by
        simp [visitFuel, hv]
      rw [he]
      exact ⟨rfl, fun x h => h, fun x h => Or.inl h, ⟨[], by simp⟩, fun h => h,
        fun V _ _ x h => Or.inl h, fun _ => Or.inl hv⟩
    · by_cases ht : t ∈ s.temp
      · have he : visitFuel deps (n + 1) s t = s := by
          simp [visitFuel, hv, ht]
        rw [he]
        exact ⟨rfl, fun x h => h, fun x h => Or.inl h, ⟨[], by simp⟩, fun h => h,
          fun V _ _ x h => Or.inl h, fun _ => Or.inr ht⟩
      · have hfold : ∀ (ds : List String) (s0 : DfsState),
            ((ds.foldl (fun acc d => visitFuel deps n acc d) s0).temp = s0.temp) ∧
            (∀ x, x ∈ s0.visited →
              x ∈ (ds.foldl (fun acc d => visitFuel deps n acc d) s0).visited) ∧
            (∀ x, x ∈ (ds.foldl (fun acc d => visitFuel deps n acc d) s0).visited →
              x ∈ s0.visited ∨ x ∉ s0.temp) ∧
            (∃ l, (ds.foldl (fun acc d => visitFuel deps n acc d) s0).order
              = s0.order ++ l) ∧
            (DfsInv s0 →
              DfsInv (ds.foldl (fun acc d => visitFuel deps n acc d) s0)) ∧
            (∀ V : List String, (∀ d ∈ ds, d ∈ V) → (∀ a b, b ∈ deps a → b ∈ V) →
              ∀ x, x ∈ (ds.foldl (fun acc d => visitFuel deps n acc d) s0).visited →
                x ∈ s0.visited ∨ x ∈ V) := by
          intro ds
          induction ds with
          | nil =>
            intro s0
            exact ⟨rfl, fun x h => h, fun x h => Or.inl h, ⟨[], by simp⟩,
              fun h => h, fun V _ _ x h => Or.inl h⟩
          | cons d rest ihds =>
            intro s0
            obtain ⟨b1, b2, b3, b4, b5, b6, -⟩ := ih s0 d
            obtain ⟨c1, c2, c3, c4, c5, c6⟩ := ihds (visitFuel deps n s0 d)
            rw [List.foldl_cons]
            refine ⟨by rw [c1, b1], ?_, ?_, ?_, ?_, ?_⟩
            · intro x hx
              exact c2 x (b2 x hx)
            · intro x hx
              rcases c3 x hx with h | h
              · exact b3 x h
              · rw [b1] at h
                exact Or.inr h
            · obtain ⟨l2, hl2⟩ := c4
              obtain ⟨l1, hl1⟩ := b4
              exact ⟨l1 ++ l2, by rw [hl2, hl1, List.append_assoc]⟩
            · intro hinv
              exact c5 (b5 hinv)
            · intro V hds hcl x hx
              rcases c6 V (fun d' hd' => hds d' (List.mem_cons_of_mem _ hd')) hcl x hx with h | h
              · exact b6 V (hds d (List.mem_cons_self _ _)) hcl x h
              · exact Or.inr h
        obtain ⟨f1, f2, f3, f4, f5, f6⟩ := hfold (deps t) ⟨t :: s.temp, s.visited, s.order⟩
        have he : visitFuel deps (n + 1) s t =
            ⟨((deps t).foldl (fun acc d => visitFuel deps n acc d)
                ⟨t :: s.temp, s.visited, s.order⟩).temp.erase t,
             t :: ((deps t).foldl (fun acc d => visitFuel deps n acc d)
                ⟨t :: s.temp, s.visited, s.order⟩).visited,
             ((deps t).foldl (fun acc d => visitFuel deps n acc d)
                ⟨t :: s.temp, s.visited, s.order⟩).order ++ [t]⟩ := by
          simp [visitFuel, hv, ht]
        rw [he]
        have htnotvis : t ∉ ((deps t).foldl (fun acc d => visitFuel deps n acc d)
            ⟨t :: s.temp, s.visited, s.order⟩).visited := by
          intro hmem
          rcases f3 t hmem with h | h
          · exact hv h
          · exact h (List.mem_cons_self t s.temp)
        refine ⟨?_, ?_, ?_, ?_, ?_, ?_, ?_⟩
        · show (_ : List String).erase t = s.temp
          rw [f1]
          exact List.erase_cons_head t s.temp
        · intro x hx
          exact List.mem_cons_of_mem _ (f2 x hx)
        · intro x hx
          rcases List.mem_cons.mp hx with rfl | hx
          · exact Or.inr ht
          · rcases f3 x hx with h | h
            · exact Or.inl h
            · exact Or.inr (fun hmem => h (List.mem_cons_of_mem _ hmem))
        · obtain ⟨l, hl⟩ := f4
          exact ⟨l ++ [t], by rw [hl, List.append_assoc]⟩
        · intro hinv
          have hinv2 := f5 hinv
          constructor
          · exact List.nodup_cons.mpr ⟨htnotvis, hinv2.1⟩
          · intro x
            have h0 := hinv2.2 x
            rw [List.count_append, h0]
            by_cases hxt : x = t
            · subst hxt
              rw [if_neg htnotvis]
              simp [List.count_cons]
            · have hbeq : (t == x) = false := by
                simp [Ne.symm hxt]
              rw [List.count_cons, List.count_nil, hbeq]
              simp only [Bool.false_eq_true, if_false, Nat.add_zero, Nat.zero_add]
              by_cases hxv : x ∈ ((deps t).foldl (fun acc d => visitFuel deps n acc d)
                  ⟨t :: s.temp, s.visited, s.order⟩).visited
              · rw [if_pos hxv, if_pos (List.mem_cons_of_mem _ hxv)]
              · have hnmem : x ∉ t :: ((deps t).foldl
                    (fun acc d => visitFuel deps n acc d)
                    ⟨t :: s.temp, s.visited, s.order⟩).visited := by
                  intro hmem
                  rcases List.mem_cons.mp hmem with h | h
                  · exact hxt h
                  · exact hxv h
                rw [if_neg hxv, if_neg hnmem]
        · intro V htV hcl x hx
          rcases List.mem_cons.mp hx with rfl | hx
          · exact Or.inr htV
          · rcases f6 V (fun d hd => hcl t d hd) hcl x hx with h | h
            · exact Or.inl h
            · exact Or.inr h
        · intro _
          exact Or.inl (List.mem_cons_self _ _)

lemma length_le_dedup (l U : List String) (hnd : l.Nodup)
    (hsub : ∀ x ∈ l, x ∈ U) : l.length ≤ U.dedup.length := by
  have h1 : l.toFinset.card = l.length := List.toFinset_card_of_nodup hnd
  have h2 : l.toFinset ⊆ U.toFinset := by
    intro x hx
    exact List.mem_toFinset.mpr (hsub x (List.mem_toFinset.mp hx))
  have h3 := Finset.card_le_card h2
  rw [h1, List.card_toFinset] at h3
  exact h3

lemma indexOf_append_left (x : String) (l1 l2 : List String) (h : x ∈ l1) :
    (l1 ++ l2).indexOf x = l1.indexOf x := by
  induction l1 with
  | nil => exact absurd h (List.not_mem_nil x)
  | cons a rest ih =>
    rw [List.cons_append, List.indexOf_cons, List.indexOf_cons]
    cases hab : a == x with
    | true => rfl
    | false =>
      have hx : x ∈ rest := by
        rcases List.mem_cons.mp h with rfl | hx
        · rw [beq_self_eq_true] at hab
          exact absurd hab (by simp)
        · exact hx
      rw [ih hx]

lemma indexOf_append_right (x : String) (l1 l2 : List String) (h : x ∉ l1) :
    (l1 ++ l2).indexOf x = l1.length + l2.indexOf x := by
  induction l1 with
  | nil => simp
  | cons a rest ih =>
    rw [List.cons_append, List.indexOf_cons]
    have hab : (a == x) = false := by
      rcases hb : a == x
      · rfl
      · exact absurd (List.mem_cons_self a rest)
          (by rw [beq_iff_eq] at hb; rw [hb] at h ⊢; exact fun hc => h hc)
    rw [hab]
    have hx : x ∉ rest := fun hc => h (List.mem_cons_of_mem _ hc)
    simp only [cond_false]
    rw [ih hx, List.length_cons]
    omega

lemma mem_of_count_eq_one {x : String} {l : List String}
    (h : l.count x = 1) : x ∈ l := by
  by_contra hx
  rw [List.count_eq_zero.mpr hx] at h
  exact absurd h (by omega)

lemma visitFold_basic (deps : String → List String) (n : Nat) :
    ∀ (ds : List String) (s0 : DfsState),
      ((ds.foldl (fun acc d => visitFuel deps n acc d) s0).temp = s0.temp) ∧
      (∀ x, x ∈ s0.visited →
        x ∈ (ds.foldl (fun acc d => visitFuel deps n acc d) s0).visited) ∧
      (∀ x, x ∈ (ds.foldl (fun acc d => visitFuel deps n acc d) s0).visited →
        x ∈ s0.visited ∨ x ∉ s0.temp) ∧
      (∃ l, (ds.foldl (fun acc d => visitFuel deps n acc d) s0).order
        = s0.order ++ l) ∧
      (DfsInv s0 → DfsInv (ds.foldl (fun acc d => visitFuel deps n acc d) s0)) := by
  intro ds
  induction ds with
  | nil =>
    intro s0
    exact ⟨rfl, fun x h => h, fun x h => Or.inl h,
      ⟨[], (List.append_nil s0.order).symm⟩, fun h => h⟩
  | cons d rest ihds =>
    intro s0
    obtain ⟨b1, b2, b3, b4, b5, -, -⟩ := visit_basic deps n s0 d
    obtain ⟨c1, c2, c3, c4, c5⟩ := ihds (visitFuel deps n s0 d)
    rw [List.foldl_cons]
    refine ⟨by rw [c1, b1], ?_, ?_, ?_, ?_⟩
    · intro x hx
      exact c2 x (b2 x hx)
    · intro x hx
      rcases c3 x hx with h | h
      · exact b3 x h
      · rw [b1] at h
        exact Or.inr h
    · obtain ⟨l2, hl2⟩ := c4
      obtain ⟨l1, hl1⟩ := b4
      exact ⟨l1 ++ l2, by rw [hl2, hl1, List.append_assoc]⟩
    · intro hinv
      exact c5 (b5 hinv)

lemma visit_sound (deps : String → List String) (U : List String)
    (rank : String → Nat) (refN : List String)
    (hdepU : ∀ a b, b ∈ deps a → b ∈ U)
    (hrank : ∀ a b, b ∈ deps a → rank b < rank a) :
    ∀ (n : Nat) (s : DfsState) (t : String),
      t ∈ U →
      s.temp.Nodup →
      (∀ x ∈ s.temp, x ∈ U) →
      (∀ x ∈ s.temp, rank t < rank x) →
      U.dedup.length + 1 ≤ n + s.temp.length →
      DfsInv s →
      (∀ x ∈ refN, x ∈ s.visited) →
      DfsOrdered deps refN s →
      DfsOrdered deps refN (visitFuel deps n s t) ∧
        t ∈ (visitFuel deps n s t).visited := by
  intro n
  induction n with
  | zero =>
    intro s t htU hnd hsubU hrk hfuel hinv href hord
    exfalso
    have := length_le_dedup s.temp U hnd hsubU
    omega
  | succ n ih =>
    intro s t htU hnd hsubU hrk hfuel hinv href hord
    by_cases hv : t ∈ s.visited
    · have he : visitFuel deps (n + 1) s t = s := by simp [visitFuel, hv]
      rw [he]
      exact ⟨hord, hv⟩
    · by_cases htp : t ∈ s.temp
      · exact absurd (hrk t htp) (lt_irrefl _)
      · have hfold :
            ∀ (ds : List String), (∀ d ∈ ds, d ∈ deps t) →
              ∀ (s0 : DfsState), s0.temp = t :: s.temp →
                DfsInv s0 → (∀ x ∈ refN, x ∈ s0.visited) →
                DfsOrdered deps refN s0 →
                DfsOrdered deps refN
                  (ds.foldl (fun acc d => visitFuel deps n acc d) s0) ∧
                (∀ x ∈ refN,
                  x ∈ (ds.foldl (fun acc d => visitFuel deps n acc d) s0).visited) ∧
                DfsInv (ds.foldl (fun acc d => visitFuel deps n acc d) s0) ∧
                ((ds.foldl (fun acc d => visitFuel deps n acc d) s0).temp
                  = t :: s.temp) ∧
                (∀ x, x ∈ s0.visited →
                  x ∈ (ds.foldl (fun acc d => visitFuel deps n acc d) s0).visited) ∧
                (∀ d ∈ ds,
                  d ∈ (ds.foldl (fun acc d => visitFuel deps n acc d) s0).visited) := by
          intro ds
          induction ds with
          | nil =>
            intro _ s0 htemp hinv0 href0 hord0
            exact ⟨hord0, href0, hinv0, htemp, fun x h => h, by simp⟩
          | cons d rest ihds =>
            intro hds s0 htemp hinv0 href0 hord0
            have hd : d ∈ deps t := hds d (List.mem_cons_self _ _)
            have hcall := ih s0 d (hdepU t d hd)
              (by rw [htemp]; exact List.nodup_cons.mpr ⟨htp, hnd⟩)
              (by
                rw [htemp]
                intro x hx
                rcases List.mem_cons.mp hx with h | hx
                · rw [h]; exact htU
                · exact hsubU x hx)
              (by
                rw [htemp]
                intro x hx
                rcases List.mem_cons.mp hx with h | hx
                · rw [h]; exact hrank t d hd
                · exact lt_trans (hrank t d hd) (hrk x hx))
              (by rw [htemp, List.length_cons]; omega)
              hinv0 href0 hord0
            obtain ⟨hordd, hdvis⟩ := hcall
            obtain ⟨b1, b2, b3, b4, b5, -, -⟩ := visit_basic deps n s0 d
            obtain ⟨r1, r2, r3, r4, r5, r6⟩ :=
              ihds (fun d' hd' => hds d' (List.mem_cons_of_mem _ hd'))
                (visitFuel deps n s0 d) (by rw [b1, htemp]) (b5 hinv0)
                (fun x hx => b2 x (href0 x hx)) hordd
            rw [List.foldl_cons]
            refine ⟨r1, r2, r3, r4, ?_, ?_⟩
            · intro x hx
              exact r5 x (b2 x hx)
            · intro d' hd'
              rcases List.mem_cons.mp hd' with rfl | hd'
              · exact r5 d' hdvis
              · exact r6 d' hd'
        obtain ⟨g1, g2, g3, g4, g5, g6⟩ :=
          hfold (deps t) (fun d hd => hd) ⟨t :: s.temp, s.visited, s.order⟩ rfl
            hinv href hord
        have he : visitFuel deps (n + 1) s t =
            ⟨((deps t).foldl (fun acc d => visitFuel deps n acc d)
                ⟨t :: s.temp, s.visited, s.order⟩).temp.erase t,
             t :: ((deps t).foldl (fun acc d => visitFuel deps n acc d)
                ⟨t :: s.temp, s.visited, s.order⟩).visited,
             ((deps t).foldl (fun acc d => visitFuel deps n acc d)
                ⟨t :: s.temp, s.visited, s.order⟩).order ++ [t]⟩ := by
          simp [visitFuel, hv, htp]
        have htnot : t ∉ ((deps t).foldl (fun acc d => visitFuel deps n acc d)
            ⟨t :: s.temp, s.visited, s.order⟩).visited := by
          obtain ⟨-, -, f3, -, -⟩ := visitFold_basic deps n (deps t)
            ⟨t :: s.temp, s.visited, s.order⟩
          intro hmem
          rcases f3 t hmem with h | h
          · exact hv h
          · exact h (List.mem_cons_self _ _)
        have htnotord : t ∉ ((deps t).foldl (fun acc d => visitFuel deps n acc d)
            ⟨t :: s.temp, s.visited, s.order⟩).order := by
          intro hmem
          have hcount := g3.2 t
          rw [if_neg htnot] at hcount
          exact (List.count_eq_zero.mp hcount) hmem
        rw [he]
        constructor
        · intro x hx hxref d hd
          rcases List.mem_cons.mp hx with rfl | hx2
          · have hdvis : d ∈ ((deps x).foldl (fun acc d => visitFuel deps n acc d)
                ⟨x :: s.temp, s.visited, s.order⟩).visited := g6 d hd
            have hdord : d ∈ ((deps x).foldl (fun acc d => visitFuel deps n acc d)
                ⟨x :: s.temp, s.visited, s.order⟩).order := by
              refine mem_of_count_eq_one ?_
              have hc := g3.2 d
              rw [if_pos hdvis] at hc
              exact hc
            refine ⟨List.mem_append.mpr (Or.inl hdord),
              List.mem_append.mpr (Or.inr (List.mem_singleton.mpr rfl)), ?_⟩
            rw [indexOf_append_left d _ [x] hdord,
                indexOf_append_right x _ [x] htnotord]
            have hlt := List.indexOf_lt_length.mpr hdord
            have hself : [x].indexOf x = 0 := by
              rw [List.indexOf_cons, beq_self_eq_true]
              rfl
            omega
          · obtain ⟨hd1, hd2, hd3⟩ := g1 x hx2 hxref d hd
            exact ⟨List.mem_append.mpr (Or.inl hd1),
              List.mem_append.mpr (Or.inl hd2),
              by rw [indexOf_append_left d _ [t] hd1,
                     indexOf_append_left x _ [t] hd2]; exact hd3⟩
        · exact List.mem_cons_self _ _

lemma depsLookup_subset_allDepNames (s : Schema) :
    ∀ a b, b ∈ s.depsLookup a → b ∈ s.allDepNames := by
  intro a b hb
  obtain ⟨t, ht, -, hd⟩ := (depsLookup_mem_iff s a b).mp hb
  obtain ⟨fk, hfk, hrt⟩ := (depsOf_mem_iff t b).mp hd
  unfold Schema.allDepNames
  refine List.mem_append.mpr (Or.inr ?_)
  exact List.mem_flatMap.mpr ⟨t, ht, List.mem_map.mpr ⟨fk, hfk, hrt⟩⟩

lemma tableNames_subset_allDepNames (s : Schema) :
    ∀ x ∈ s.tableNames, x ∈ s.allDepNames := by
  intro x hx
  exact List.mem_append.mpr (Or.inl hx)

lemma refNames_nodup (s : Schema) (hnd : s.namesDistinct) :
    (s.get_reference_tables.map (fun t => t.name)).Nodup := by
  have hsub : List.Sublist (s.get_reference_tables.map (fun t => t.name))
      (s.tables.map (fun t => t.name)) :=
    List.Sublist.map _ (List.filter_sublist _)
  exact hsub.nodup hnd

lemma schedulerInitInv (s : Schema) (hnd : s.namesDistinct) :
    DfsInv ⟨[], s.get_reference_tables.map (fun t => t.name),
      s.get_reference_tables.map (fun t => t.name)⟩ := by
  refine ⟨refNames_nodup s hnd, ?_⟩
  intro x
  by_cases hx : x ∈ s.get_reference_tables.map (fun t => t.name)
  · rw [if_pos hx]
    exact List.count_eq_one_of_mem (refNames_nodup s hnd) hx
  · rw [if_neg hx]
    exact List.count_eq_zero.mpr hx

lemma topFold_core (s : Schema) :
    ∀ (ds : List String) (s0 : DfsState), DfsInv s0 → s0.temp = [] →
      DfsInv (ds.foldl (fun st t => if t ∈ st.visited then st
        else visitFuel s.depsLookup (s.allDepNames.length + 1) st t) s0) ∧
      ((ds.foldl (fun st t => if t ∈ st.visited then st
        else visitFuel s.depsLookup (s.allDepNames.length + 1) st t) s0).temp = []) ∧
      (∃ l, (ds.foldl (fun st t => if t ∈ st.visited then st
        else visitFuel s.depsLookup (s.allDepNames.length + 1) st t) s0).order
          = s0.order ++ l) ∧
      (∀ x ∈ s0.visited, x ∈ (ds.foldl (fun st t => if t ∈ st.visited then st
        else visitFuel s.depsLookup (s.allDepNames.length + 1) st t) s0).visited) ∧
      (∀ d ∈ ds, d ∈ (ds.foldl (fun st t => if t ∈ st.visited then st
        else visitFuel s.depsLookup (s.allDepNames.length + 1) st t) s0).visited) ∧
      (∀ V : List String, (∀ d ∈ ds, d ∈ V) →
        (∀ a b, b ∈ s.depsLookup a → b ∈ V) →
        ∀ x ∈ (ds.foldl (fun st t => if t ∈ st.visited then st
          else visitFuel s.depsLookup (s.allDepNames.length + 1) st t) s0).visited,
          x ∈ s0.visited ∨ x ∈ V) := by
  intro ds
  induction ds with
  | nil =>
    intro s0 hinv0 htemp0
    exact ⟨hinv0, htemp0, ⟨[], (List.append_nil s0.order).symm⟩,
      fun x h => h, by simp, fun V _ _ x h => Or.inl h⟩
  | cons t rest ihds =>
    intro s0 hinv0 htemp0
    rw [List.foldl_cons]
    by_cases hg : t ∈ s0.visited
    · rw [if_pos hg]
      obtain ⟨r1, r2, r3, r4, r5, r6⟩ := ihds s0 hinv0 htemp0
      refine ⟨r1, r2, r3, r4, ?_, ?_⟩
      · intro d hd
        rcases List.mem_cons.mp hd with h | hd
        · rw [h]; exact r4 t hg
        · exact r5 d hd
      · intro V hds hcl x hx
        exact r6 V (fun d hd => hds d (List.mem_cons_of_mem _ hd)) hcl x hx
    · rw [if_neg hg]
      obtain ⟨b1, b2, b3, b4, b5, b6, b7⟩ :=
        visit_basic s.depsLookup (s.allDepNames.length + 1) s0 t
      have htvis : t ∈ (visitFuel s.depsLookup (s.allDepNames.length + 1)
          s0 t).visited := by
        rcases b7 (by omega) with h | h
        · exact h
        · rw [htemp0] at h
          exact absurd h (List.not_mem_nil t)
      obtain ⟨r1, r2, r3, r4, r5, r6⟩ := ihds _ (b5 hinv0) (by rw [b1, htemp0])
      refine ⟨r1, r2, ?_, ?_, ?_, ?_⟩
      · obtain ⟨l2, hl2⟩ := r3
        obtain ⟨l1, hl1⟩ := b4
        exact ⟨l1 ++ l2, by rw [hl2, hl1, List.append_assoc]⟩
      · intro x hx
        exact r4 x (b2 x hx)
      · intro d hd
        rcases List.mem_cons.mp hd with h | hd
        · rw [h]; exact r4 t htvis
        · exact r5 d hd
      · intro V hds hcl x hx
        rcases r6 V (fun d hd => hds d (List.mem_cons_of_mem _ hd)) hcl x hx with
          h | h
        · rcases b6 V (hds t (List.mem_cons_self _ _)) hcl x h with h2 | h2
          · exact Or.inl h2
          · exact Or.inr h2
        · exact Or.inr h

lemma endState_core (s : Schema) (hnd : s.namesDistinct) :
    DfsInv (schedulerEndState s) ∧
    (schedulerEndState s).temp = [] ∧
    (∃ rest, (schedulerEndState s).order
      = s.get_reference_tables.map (fun t => t.name) ++ rest) ∧
    (∀ t ∈ s.tables, t.name ∈ (schedulerEndState s).visited) ∧
    (∀ x ∈ (schedulerEndState s).visited,
      x ∈ s.get_reference_tables.map (fun t => t.name) ∨ x ∈ s.allDepNames) := by
  have hse : schedulerEndState s
      = (s.get_data_tables.map (fun t => t.name)).foldl
          (fun st t => if t ∈ st.visited then st
            else visitFuel s.depsLookup (s.allDepNames.length + 1) st t)
          ⟨[], s.get_reference_tables.map (fun t => t.name),
            s.get_reference_tables.map (fun t => t.name)⟩ := rfl
  obtain ⟨r1, r2, r3, r4, r5, r6⟩ :=
    topFold_core s (s.get_data_tables.map (fun t => t.name))
      ⟨[], s.get_reference_tables.map (fun t => t.name),
        s.get_reference_tables.map (fun t => t.name)⟩
      (schedulerInitInv s hnd) rfl
  rw [hse]
  refine ⟨r1, r2, r3, ?_, ?_⟩
  · intro t ht
    by_cases hrt : t.is_reference_table = true
    · refine r4 t.name ?_
      exact List.mem_map.mpr ⟨t, List.mem_filter.mpr ⟨ht, by simp [hrt]⟩, rfl⟩
    · refine r5 t.name ?_
      exact List.mem_map.mpr ⟨t, List.mem_filter.mpr ⟨ht, by simp [hrt]⟩, rfl⟩
  · intro x hx
    have hdata : ∀ d ∈ s.get_data_tables.map (fun t => t.name),
        d ∈ s.allDepNames := by
      intro d hd
      obtain ⟨u, hu, hun⟩ := List.mem_map.mp hd
      exact tableNames_subset_allDepNames s d
        (List.mem_map.mpr ⟨u, List.mem_of_mem_filter hu, hun⟩)
    exact r6 s.allDepNames hdata (depsLookup_subset_allDepNames s) x hx

lemma topFold_sound (s : Schema) (rank : String → Nat)
    (hrank : ∀ a b, b ∈ s.depsLookup a → rank b < rank a) :
    ∀ (ds : List String) (s0 : DfsState),
      (∀ d ∈ ds, d ∈ s.allDepNames) → s0.temp = [] → DfsInv s0 →
      (∀ x ∈ s.get_reference_tables.map (fun t => t.name), x ∈ s0.visited) →
      DfsOrdered s.depsLookup (s.get_reference_tables.map (fun t => t.name)) s0 →
      DfsOrdered s.depsLookup (s.get_reference_tables.map (fun t => t.name))
        (ds.foldl (fun st t => if t ∈ st.visited then st
          else visitFuel s.depsLookup (s.allDepNames.length + 1) st t) s0) := by
  intro ds
  induction ds with
  | nil =>
    intro s0 _ _ _ _ hord0
    exact hord0
  | cons t rest ihds =>
    intro s0 hds htemp0 hinv0 href0 hord0
    rw [List.foldl_cons]
    by_cases hg : t ∈ s0.visited
    · rw [if_pos hg]
      exact ihds s0 (fun d hd => hds d (List.mem_cons_of_mem _ hd)) htemp0 hinv0
        href0 hord0
    · rw [if_neg hg]
      have hfuel : s.allDepNames.dedup.length + 1
          ≤ (s.allDepNames.length + 1) + s0.temp.length := by
        have := (List.dedup_sublist s.allDepNames).length_le
        omega
      obtain ⟨hord1, -⟩ := visit_sound s.depsLookup s.allDepNames rank
        (s.get_reference_tables.map (fun t => t.name))
        (depsLookup_subset_allDepNames s) hrank (s.allDepNames.length + 1) s0 t
        (hds t (List.mem_cons_self _ _))
        (by rw [htemp0]; exact List.nodup_nil)
        (by rw [htemp0]; intro x hx; exact absurd hx (List.not_mem_nil x))
        (by rw [htemp0]; intro x hx; exact absurd hx (List.not_mem_nil x))
        hfuel hinv0 href0 hord0
      obtain ⟨b1, b2, -, -, b5, -, -⟩ :=
        visit_basic s.depsLookup (s.allDepNames.length + 1) s0 t
      exact ihds _ (fun d hd => hds d (List.mem_cons_of_mem _ hd))
        (by rw [b1, htemp0]) (b5 hinv0) (fun x hx => b2 x (href0 x hx)) hord1

lemma endState_ordered (s : Schema) (hnd : s.namesDistinct)
    (rank : String → Nat) (hrk : s.rankedBy rank) :
    DfsOrdered s.depsLookup (s.get_reference_tables.map (fun t => t.name))
      (schedulerEndState s) := by
  have hrank : ∀ a b, b ∈ s.depsLookup a → rank b < rank a := by
    intro a b hb
    obtain ⟨t, ht, hname, hd⟩ := (depsLookup_mem_iff s a b).mp hb
    have := hrk t ht b hd
    rw [hname] at this
    exact this
  have hse : schedulerEndState s
      = (s.get_data_tables.map (fun t => t.name)).foldl
          (fun st t => if t ∈ st.visited then st
            else visitFuel s.depsLookup (s.allDepNames.length + 1) st t)
          ⟨[], s.get_reference_tables.map (fun t => t.name),
            s.get_reference_tables.map (fun t => t.name)⟩ := rfl
  rw [hse]
  refine topFold_sound s rank hrank _ _ ?_ rfl (schedulerInitInv s hnd) ?_ ?_
  · intro d hd
    obtain ⟨u, hu, hun⟩ := List.mem_map.mp hd
    exact tableNames_subset_allDepNames s d
      (List.mem_map.mpr ⟨u, List.mem_of_mem_filter hu, hun⟩)
  · intro x hx
    exact hx
  · intro x hx hxref d _
    exact absurd hx hxref

lemma ref_data_name_disjoint (s : Schema) (hnd : s.namesDistinct) :
    ∀ x, x ∈ s.get_reference_tables.map (fun t => t.name) →
      x ∈ s.get_data_tables.map (fun t => t.name) → False := by
  intro x hxr hxd
  obtain ⟨u, hu, hun⟩ := List.mem_map.mp hxr
  obtain ⟨w, hw, hwn⟩ := List.mem_map.mp hxd
  have hueq : u = w := List.inj_on_of_nodup_map hnd
    (List.mem_of_mem_filter hu) (List.mem_of_mem_filter hw) (by rw [hun, hwn])
  have hu2 := List.of_mem_filter hu
  have hw2 := List.of_mem_filter hw
  rw [hueq] at hu2
  simp at hu2 hw2
  rw [hu2] at hw2
  exact Bool.false_ne_true hw2.symm

/-- Counterexample for C1 as stated: in the fully resolvable, acyclic
fixture schema, the reference table `MyRef` holds a foreign key to the
data table `Orders`; `Orders` is reachable from `MyRef` via foreign
keys, yet the scheduler (correctly, by its reference-first policy)
emits `MyRef` before `Orders`, so "every table after all tables
reachable via its foreign keys" fails. -/
theorem c1_counterexample :
    fxRefFkSchema.namesDistinct ∧
    fxRefFkSchema.resolvable ∧
    fxRefFkSchema.rankedBy fxRefFkRank ∧
    determine_generation_order fxRefFkSchema = ["MyRef", "Orders"] ∧
    ¬ schedulerClaimC1 fxRefFkSchema := by
  refine ⟨by unfold Schema.namesDistinct Schema.tableNames; decide,
    by unfold Schema.resolvable; decide,
    by unfold Schema.rankedBy; decide,
    by decide, ?_⟩
  rintro ⟨-, hreach, -⟩
  have hedge : fxRefFkSchema.fkEdge "MyRef" "Orders" :=
    ⟨fxRef, by decide, rfl, by decide⟩
  have hbef := hreach "MyRef" "Orders" (Relation.TransGen.single hedge)
  rw [show determine_generation_order fxRefFkSchema = ["MyRef", "Orders"]
    from by decide] at hbef
  obtain ⟨-, -, hlt⟩ := hbef
  revert hlt
  decide

/-- Claim C1 (amended): for a schema with distinct table names, fully
resolvable foreign keys and an acyclic dependency graph (witnessed by a
rank function decreasing along every edge), the scheduler's order
contains each table exactly once, places every table after everything
reachable from it along foreign-key edges that originate at data
tables (reference tables are emitted first unconditionally, so their
own foreign keys impose no ordering), and consists of the reference
tables in declaration order followed only by data tables. -/
theorem c1_scheduler_order :
    ∀ (s : Schema) (rank : String → Nat),
      s.namesDistinct → s.resolvable → s.rankedBy rank →
      (∀ t ∈ s.tables, (determine_generation_order s).count t.name = 1) ∧
      (∀ x y, Relation.TransGen s.dataEdge x y →
        beforeIn (determine_generation_order s) y x) ∧
      (∃ rest, determine_generation_order s
          = s.get_reference_tables.map (fun t => t.name) ++ rest ∧
        ∀ y ∈ rest, y ∈ s.get_data_tables.map (fun t => t.name)) := by
  intro s rank hnd hres hrk
  obtain ⟨hinv, htemp, ⟨rest, horder⟩, hvis, hclos⟩ := endState_core s hnd
  have hord := endState_ordered s hnd rank hrk
  have hdet : determine_generation_order s = (schedulerEndState s).order := rfl
  refine ⟨?_, ?_, ?_⟩
  · intro t ht
    rw [hdet]
    have hc := hinv.2 t.name
    rw [if_pos (hvis t ht)] at hc
    exact hc
  · have hstep : ∀ x y, s.dataEdge x y →
        beforeIn (schedulerEndState s).order y x := by
      intro x y hxy
      obtain ⟨u, hu, hname, hudata, hdep⟩ := hxy
      have hxvis : x ∈ (schedulerEndState s).visited := hname ▸ hvis u hu
      have hxnotref : x ∉ s.get_reference_tables.map (fun t => t.name) := by
        intro hxr
        obtain ⟨w, hw, hwname⟩ := List.mem_map.mp hxr
        have hwref := List.of_mem_filter hw
        have hweq : w = u := List.inj_on_of_nodup_map hnd
          (List.mem_of_mem_filter hw) hu (by rw [hwname, hname])
        rw [hweq] at hwref
        have hwref2 : u.is_reference_table = true := hwref
        rw [hudata] at hwref2
        exact Bool.false_ne_true hwref2
      have hdep2 : y ∈ s.depsLookup x :=
        (depsLookup_mem_iff s x y).mpr ⟨u, hu, hname, hdep⟩
      exact hord x hxvis hxnotref y hdep2
    intro x y hxy
    rw [hdet]
    induction hxy with
    | single h => exact hstep _ _ h
    | tail hxb hby ihb =>
      obtain ⟨h1, h2, h3⟩ := hstep _ _ hby
      obtain ⟨h4, h5, h6⟩ := ihb
      exact ⟨h1, h5, lt_trans h3 h6⟩
  · refine ⟨rest, by rw [hdet, horder], ?_⟩
    intro y hy
    have hyord : y ∈ (schedulerEndState s).order := by
      rw [horder]
      exact List.mem_append.mpr (Or.inr hy)
    have hyvis : y ∈ (schedulerEndState s).visited := by
      by_contra hyv
      have hc := hinv.2 y
      rw [if_neg hyv] at hc
      exact (List.count_eq_zero.mp hc) hyord
    have hynotref : y ∉ s.get_reference_tables.map (fun t => t.name) := by
      intro hyr
      have hc := hinv.2 y
      rw [if_pos hyvis, horder, List.count_append] at hc
      have h1 : (s.get_reference_tables.map (fun t => t.name)).count y = 1 :=
        List.count_eq_one_of_mem (refNames_nodup s hnd) hyr
      have h2 : rest.count y = 0 := by omega
      exact (List.count_eq_zero.mp h2) hy
    rcases hclos y hyvis with h | h
    · exact absurd h hynotref
    · have hytn : y ∈ s.tableNames := by
        rcases List.mem_append.mp h with h1 | h1
        · exact h1
        · obtain ⟨u, hu, hfk⟩ := List.mem_flatMap.mp h1
          obtain ⟨fk, hfkm, hrt⟩ := List.mem_map.mp hfk
          obtain ⟨w, hw, hwn⟩ := hres u hu fk hfkm
          exact List.mem_map.mpr ⟨w, hw, by rw [hwn, hrt]⟩
      obtain ⟨w, hw, hwn⟩ := List.mem_map.mp hytn
      by_cases hwr : w.is_reference_table = true
      · exact absurd (List.mem_map.mpr
          ⟨w, List.mem_filter.mpr ⟨hw, by simp [hwr]⟩, hwn⟩) hynotref
      · exact List.mem_map.mpr ⟨w, List.mem_filter.mpr ⟨hw, by simp [hwr]⟩, hwn⟩

/-- Witness for C1 at the acyclic chain fixture (Tags ← Posts ←
Links, declared in reverse order). -/
theorem c1_witness :
    fxChainSchema.namesDistinct ∧ fxChainSchema.resolvable ∧
    fxChainSchema.rankedBy fxChainRank ∧
    determine_generation_order fxChainSchema = ["Tags", "Posts", "Links"] ∧
    (∀ t ∈ fxChainSchema.tables,
      (determine_generation_order fxChainSchema).count t.name = 1) := by
  have hres : fxChainSchema.resolvable := by
    unfold Schema.resolvable
    decide
  have hnd : fxChainSchema.namesDistinct := by
    unfold Schema.namesDistinct Schema.tableNames
    decide
  have hrk : fxChainSchema.rankedBy fxChainRank := by
    unfold Schema.rankedBy
    decide
  refine ⟨hnd, hres, hrk, by decide, ?_⟩
  exact (c1_scheduler_order fxChainSchema fxChainRank hnd hres hrk).1

/-- Counterexample for C3 as stated: the fixture's only table holds a
foreign key to the absent name "Ghost"; the dependency map does record
the edge, and the scheduler's output contains "Ghost" itself (before
the referencing table), so the output is not made of schema table
names only. -/
theorem c3_counterexample :
    "Ghost" ∈ fxGhostSchema.depsLookup "Lines" ∧
    determine_generation_order fxGhostSchema = ["Ghost", "Lines"] ∧
    "Ghost" ∉ fxGhostSchema.tableNames := by
  decide

/-- Claim C3 (amended): an unresolvable referenced-table name has no
dependency entry of its own (it contributes no outgoing edges and
cannot make the traversal recurse), but the scheduler's raw output
contains it: every element of the output is either a schema table name
or some foreign key's referenced name, every schema table still
appears exactly once, and the runner's subsequent per-name lookup
(`schema.get_table`) keeps only (case-insensitive) schema table names. -/
theorem c3_unresolved_reference :
    ∀ (s : Schema), s.namesDistinct →
      (∀ g, g ∉ s.tableNames → s.depsLookup g = []) ∧
      (∀ t ∈ s.tables, (determine_generation_order s).count t.name = 1) ∧
      (∀ x ∈ determine_generation_order s,
        x ∈ s.tableNames ∨
          ∃ t ∈ s.tables, ∃ fk ∈ t.foreign_keys, fk.ref_table = x) ∧
      (∀ x ∈ (determine_generation_order s).filter
          (fun n => (s.get_table n).isSome),
        ∃ u ∈ s.tables, strLower u.name = strLower x) := by
  intro s hnd
  obtain ⟨hinv, -, -, hvis, hclos⟩ := endState_core s hnd
  have hdet : determine_generation_order s = (schedulerEndState s).order := rfl
  refine ⟨fun g hg => depsLookup_ghost s g hg, ?_, ?_, ?_⟩
  · intro t ht
    rw [hdet]
    have hc := hinv.2 t.name
    rw [if_pos (hvis t ht)] at hc
    exact hc
  · intro x hx
    rw [hdet] at hx
    have hxvis : x ∈ (schedulerEndState s).visited := by
      by_contra hxv
      have hc := hinv.2 x
      rw [if_neg hxv] at hc
      exact (List.count_eq_zero.mp hc) hx
    rcases hclos x hxvis with h | h
    · obtain ⟨u, hu, hun⟩ := List.mem_map.mp h
      exact Or.inl (List.mem_map.mpr ⟨u, List.mem_of_mem_filter hu, hun⟩)
    · rcases List.mem_append.mp h with h1 | h1
      · exact Or.inl h1
      · obtain ⟨u, hu, hfk⟩ := List.mem_flatMap.mp h1
        obtain ⟨fk, hfkm, hrt⟩ := List.mem_map.mp hfk
        exact Or.inr ⟨u, hu, fk, hfkm, hrt⟩
  · intro x hx
    rw [List.mem_filter] at hx
    obtain ⟨u, hu⟩ := Option.isSome_iff_exists.mp hx.2
    obtain ⟨hpa, pre, post, hl, -⟩ := find?_some_first hu
    refine ⟨u, by rw [hl]; simp, by simpa using hpa⟩

/-- Witness for C3 at the ghost fixture: "Lines" appears exactly once,
and the one non-schema element of the output is the foreign-key target
"Ghost". -/
theorem c3_witness :
    (determine_generation_order fxGhostSchema).count "Lines" = 1 ∧
    ("Ghost" ∈ determine_generation_order fxGhostSchema ∧
      ∃ t ∈ fxGhostSchema.tables, ∃ fk ∈ t.foreign_keys,
        fk.ref_table = "Ghost") := by
  have h := c3_unresolved_reference fxGhostSchema
    (by unfold Schema.namesDistinct Schema.tableNames; decide)
  refine ⟨?_, by decide, ?_⟩
  · have := h.2.1 fxLines (by decide)
    exact this
  · have := h.2.2.1 "Ghost" (by decide)
    rcases this with h1 | h1
    · exact absurd h1 (by decide)
    · exact h1

/-- Claim C4: on a schema whose data tables include a two-table
foreign-key cycle, the scheduler still terminates (the embedding's
fuel bound is never the limiting factor: the back-edge check refuses
to recurse into a table already on the visiting stack) and its output
contains each of the two cyclic tables exactly once. -/
theorem c4_cycle_scheduler_terminates :
    ∀ (s : Schema) (ta tb : Table),
      s.namesDistinct →
      ta ∈ s.tables → tb ∈ s.tables → ta.name ≠ tb.name →
      ta.is_reference_table = false → tb.is_reference_table = false →
      tb.name ∈ ta.depsOf → ta.name ∈ tb.depsOf →
      (determine_generation_order s).count ta.name = 1 ∧
      (determine_generation_order s).count tb.name = 1 := by
  intro s ta tb hnd hta htb _ _ _ _ _
  obtain ⟨hinv, -, -, hvis, -⟩ := endState_core s hnd
  have hdet : determine_generation_order s = (schedulerEndState s).order := rfl
  constructor
  · rw [hdet]
    have hc := hinv.2 ta.name
    rw [if_pos (hvis ta hta)] at hc
    exact hc
  · rw [hdet]
    have hc := hinv.2 tb.name
    rw [if_pos (hvis tb htb)] at hc
    exact hc

/-- Witness for C4 at the concrete 2-cycle fixture. -/
theorem c4_witness :
    determine_generation_order fxCycleSchema = ["B", "A"] ∧
    (determine_generation_order fxCycleSchema).count "A" = 1 ∧
    (determine_generation_order fxCycleSchema).count "B" = 1 := by
  refine ⟨by decide, ?_⟩
  exact c4_cycle_scheduler_terminates fxCycleSchema fxCycA fxCycB
    (by unfold Schema.namesDistinct Schema.tableNames; decide)
    (by decide) (by decide) (by decide) (by decide) (by decide) (by decide)
    (by decide)

end SynthGen
